import Mathlib

/-!
Shallow embedding of the two core subsystems of the kajiya repository:

* the pipeline cache (`crates/lib/kajiya-backend/src/pipeline_cache.rs`):
  handle registration with per-kind deduplication, stale invalidation,
  and the parallel compile pass; and
* the temporal resource ledger (`crates/lib/kajiya-rg/src/temporal.rs`):
  the `Inert / Imported / Exported` state machine for cross-frame
  image and buffer reuse.

Rust `HashMap`s keyed by monotonically assigned handles are embedded as
append-only arenas (`List` indexed by the handle's raw value) — handles are
assigned as `entries.len()` and entries are never removed, so the map is
exactly an arena.  Deduplication indices and the temporal ledgers are
embedded as association lists; `HashMap` iteration order is unspecified in
Rust and list order stands in for it (no claim depends on the order).
Rust panics (`unwrap`, `expect`, `unreachable!`) are embedded as `none` /
a dedicated `panic` result constructor; `anyhow` errors as explicit error
values.  External collaborators (the shader compiler, driver pipeline
construction, the render-graph import/export bookkeeping, the device
allocator) are embedded as explicit environment records of functions.
-/

/-- Shader source descriptor, from `kajiya-backend/src/vulkan/shader.rs`
(`ShaderSource::Rust { entry }` or `ShaderSource::Hlsl { path }`); the
two-variant shape is visible from the matches in `pipeline_cache.rs`. -/
inductive ShaderSource : Type
  | rust (entry : String)
  | hlsl (path : String)
deriving DecidableEq, Repr

/-- Per-stage shader descriptor (`PipelineShaderDesc`).  Its definition lives
outside the observed source; `pipeline_cache.rs` reads only its `source`
field.  Modelled from the spec: the remaining fields (stage, descriptor
layout overrides, ...) are abstracted into a single opaque component. -/
structure PipelineShaderDesc where
  source : ShaderSource
  restOfDesc : Nat
deriving DecidableEq, Repr

/-- Compute pipeline description (`ComputePipelineDesc`).  Its definition
lives outside the observed source; `pipeline_cache.rs` reads only its
`source` field and the registration TODO notes that the rest of the
descriptor is not part of the dedup key.  Modelled from the spec: the
remaining fields are abstracted into a single opaque component. -/
structure ComputePipelineDesc where
  source : ShaderSource
  restOfDesc : Nat
deriving DecidableEq, Repr

/-- Raster shader-set description (`RasterPipelineShadersDesc`), the dedup
key for raster pipelines: a vertex and a pixel stage descriptor (visible
from the `LazyWorker` impl in `pipeline_cache.rs`). -/
structure RasterPipelineShadersDesc where
  vertex : PipelineShaderDesc
  pixel : PipelineShaderDesc
deriving DecidableEq, Repr

/-- Raster pipeline description (`RasterPipelineDesc`), defined outside the
observed source and treated opaquely by `pipeline_cache.rs` (it is cloned
into the entry and later passed to pipeline construction).  Modelled from
the spec: abstracted into a single opaque component. -/
structure RasterPipelineDesc where
  restOfDesc : Nat
deriving DecidableEq, Repr

/-- Ray-tracing shader group descriptor (`ShaderGroupDesc`), shape visible
from the `LazyWorker` impl in `pipeline_cache.rs`. -/
inductive ShaderGroupDesc : Type
  | rayGen (g : PipelineShaderDesc)
  | miss (g : PipelineShaderDesc)
  | hitGroup (closestHit : Option PipelineShaderDesc) (intersection : Option PipelineShaderDesc)
deriving DecidableEq, Repr

/-- Ray-tracing pipeline description (`RayTracingPipelineDesc`), defined
outside the observed source and treated opaquely by `pipeline_cache.rs`.
Modelled from the spec: abstracted into a single opaque component. -/
structure RayTracingPipelineDesc where
  restOfDesc : Nat
deriving DecidableEq, Repr

/-- Compiled SPIR-V blob (`Bytes`), opaque. -/
abbrev Bytes := Nat

/-- Handle for a registered compute pipeline (`ComputePipelineHandle`),
a newtype over the arena index. -/
structure ComputePipelineHandle where
  val : Nat
deriving DecidableEq, Repr

/-- Handle for a registered raster pipeline (`RasterPipelineHandle`). -/
structure RasterPipelineHandle where
  val : Nat
deriving DecidableEq, Repr

/-- Handle for a registered ray-tracing pipeline (`RtPipelineHandle`). -/
structure RtPipelineHandle where
  val : Nat
deriving DecidableEq, Repr

/-- Sum of the three handle kinds.  In Rust the three handle types are
distinct, so a cross-kind comparison is only expressible after injecting
them into a common type; this inductive is that common type. -/
inductive AnyPipelineHandle : Type
  | compute (h : ComputePipelineHandle)
  | raster (h : RasterPipelineHandle)
  | rt (h : RtPipelineHandle)
deriving DecidableEq, Repr

/-- Identity of a primitive shader-compile task in the shared lazy cache:
`CompileRustShader { entry }` or `CompileShader { path, profile }`.  Two
`into_lazy` calls on equal task values are memoized to one computation. -/
inductive ShaderCompileTask : Type
  | rustShader (entry : String)
  | hlslShader (path : String) (profile : String)
deriving DecidableEq, Repr

/-- Compile task built by `register_compute` from the pipeline's shader
source (the `match &desc.source` in `pipeline_cache.rs`). -/
def computeCompileTask : ShaderSource → ShaderCompileTask
  | .rust entry => .rustShader entry
  | .hlsl path => .hlslShader path "cs"

/-- Task identity for one raster/rt pipeline stage: the `compile` helper in
`pipeline_cache.rs` routes `Rust` sources to `CompileRustShader` and `Hlsl`
sources to `CompileShader` with the given profile. -/
def stageCompileTask (d : PipelineShaderDesc) (profile : String) : ShaderCompileTask :=
  match d.source with
  | .rust entry => .rustShader entry
  | .hlsl path => .hlslShader path profile

/-- Materialized driver compute pipeline object (`ComputePipeline`), opaque. -/
structure ComputePipeline where
  obj : Nat
deriving DecidableEq, Repr

/-- Materialized driver raster pipeline object (`RasterPipeline`), opaque. -/
structure RasterPipeline where
  obj : Nat
deriving DecidableEq, Repr

/-- Materialized driver ray-tracing pipeline object (`RayTracingPipeline`),
opaque. -/
structure RayTracingPipeline where
  obj : Nat
deriving DecidableEq, Repr

/-- Result of the raster `LazyWorker`: compiled vertex and pixel stages
(`RasterPipelineShaders<Bytes>`). -/
structure RasterPipelineShaders where
  vertex : Bytes
  pixel : Bytes
deriving DecidableEq, Repr

/-- Result of one compiled ray-tracing shader group
(`PipelineShaderGroup<Bytes>`); the first `hitGroup` field keeps the
source's spelling `cloest_hit`. -/
inductive PipelineShaderGroup : Type
  | rayGen (s : Bytes)
  | miss (s : Bytes)
  | hitGroup (cloestHit : Option Bytes) (intersection : Option Bytes)
deriving DecidableEq, Repr

/-- Cache entry for one registered pipeline, generic over the task identity
`τ`, the description `δ` and the driver object `π` (the three Rust entry
structs `ComputePipelineCacheEntry`, `RasterPipelineCacheEntry` and
`RtPipelineCacheEntry` share this shape). -/
structure CacheEntry (τ δ π : Type) where
  lazyHandle : τ
  desc : δ
  pipeline : Option π
deriving DecidableEq, Repr

/-- Entry of the compute pipeline arena (`ComputePipelineCacheEntry`). -/
abbrev ComputeEntry := CacheEntry ShaderCompileTask ComputePipelineDesc ComputePipeline

/-- Entry of the raster pipeline arena (`RasterPipelineCacheEntry`); the
lazy handle is the shader-set description itself (`shaders.clone().into_lazy()`). -/
abbrev RasterEntry := CacheEntry RasterPipelineShadersDesc RasterPipelineDesc RasterPipeline

/-- Entry of the ray-tracing pipeline arena (`RtPipelineCacheEntry`); the
lazy handle is the shader group list (`RayTracingPipelineShadersDesc`). -/
abbrev RtEntry := CacheEntry (List ShaderGroupDesc) RayTracingPipelineDesc RayTracingPipeline

/-- The pipeline cache state (`PipelineCache`): three entry arenas and
three deduplication indices.  The `lazy_cache` field of the Rust struct is
the shared compile memoization cache; it is embedded as part of the
`CompileEnv` environment instead of the state. -/
structure PipelineCache where
  computeEntries : List ComputeEntry
  rasterEntries : List RasterEntry
  rtEntries : List RtEntry
  computeShaderToHandle : List (ShaderSource × Nat)
  rasterShadersToHandle : List (RasterPipelineShadersDesc × Nat)
  rtShadersToHandle : List (List ShaderGroupDesc × Nat)
deriving DecidableEq, Repr

/-- The empty cache produced by `PipelineCache::new`. -/
def PipelineCache.new : PipelineCache :=
  { computeEntries := []
    rasterEntries := []
    rtEntries := []
    computeShaderToHandle := []
    rasterShadersToHandle := []
    rtShadersToHandle := [] }

/-- Lookup in a deduplication index (association list standing in for the
Rust `HashMap`). -/
def lookupHandle {κ : Type} [DecidableEq κ] : List (κ × Nat) → κ → Option Nat
  | [], _ => none
  | (k₁, h) :: rest, k => if k₁ = k then some h else lookupHandle rest k

/-- Registration of a compute pipeline (`PipelineCache::register_compute`):
dedup key is `desc.source` only; a vacant key allocates handle
`compute_entries.len()`, creates the compile task from the source, and
inserts an entry with no materialized pipeline. -/
def PipelineCache.register_compute (c : PipelineCache) (desc : ComputePipelineDesc) :
    ComputePipelineHandle × PipelineCache :=
  match lookupHandle c.computeShaderToHandle desc.source with
  | some h => (⟨h⟩, c)
  | none =>
    let handle := c.computeEntries.length
    let compileTask := computeCompileTask desc.source
    (⟨handle⟩,
      { c with
        computeEntries := c.computeEntries ++ [⟨compileTask, desc, none⟩]
        computeShaderToHandle := (desc.source, handle) :: c.computeShaderToHandle })

/-- Fetch of a materialized compute pipeline (`PipelineCache::get_compute`);
the two Rust `unwrap`s (absent entry, absent pipeline) are embedded as
`none`, the fatal outcome. -/
def PipelineCache.get_compute (c : PipelineCache) (handle : ComputePipelineHandle) :
    Option ComputePipeline :=
  match c.computeEntries.get? handle.val with
  | none => none
  | some entry => entry.pipeline

/-- Registration of a raster pipeline (`PipelineCache::register_raster`):
dedup key is the `shaders` argument only; the separate `desc` argument is
stored in the entry but not part of the key. -/
def PipelineCache.register_raster (c : PipelineCache) (shaders : RasterPipelineShadersDesc)
    (desc : RasterPipelineDesc) : RasterPipelineHandle × PipelineCache :=
  match lookupHandle c.rasterShadersToHandle shaders with
  | some h => (⟨h⟩, c)
  | none =>
    let handle := c.rasterEntries.length
    (⟨handle⟩,
      { c with
        rasterShadersToHandle := (shaders, handle) :: c.rasterShadersToHandle
        rasterEntries := c.rasterEntries ++ [⟨shaders, desc, none⟩] })

/-- Fetch of a materialized raster pipeline (`PipelineCache::get_raster`). -/
def PipelineCache.get_raster (c : PipelineCache) (handle : RasterPipelineHandle) :
    Option RasterPipeline :=
  match c.rasterEntries.get? handle.val with
  | none => none
  | some entry => entry.pipeline

/-- Registration of a ray-tracing pipeline
(`PipelineCache::register_ray_tracing`): dedup key is the shader group
list only. -/
def PipelineCache.register_ray_tracing (c : PipelineCache) (shaders : List ShaderGroupDesc)
    (desc : RayTracingPipelineDesc) : RtPipelineHandle × PipelineCache :=
  match lookupHandle c.rtShadersToHandle shaders with
  | some h => (⟨h⟩, c)
  | none =>
    let handle := c.rtEntries.length
    (⟨handle⟩,
      { c with
        rtShadersToHandle := (shaders, handle) :: c.rtShadersToHandle
        rtEntries := c.rtEntries ++ [⟨shaders, desc, none⟩] })

/-- Fetch of a materialized ray-tracing pipeline
(`PipelineCache::get_ray_tracing`). -/
def PipelineCache.get_ray_tracing (c : PipelineCache) (handle : RtPipelineHandle) :
    Option RayTracingPipeline :=
  match c.rtEntries.get? handle.val with
  | none => none
  | some entry => entry.pipeline

/-- Environment of external collaborators for one frame-preparation pass:
the memoized shader compiler (`compileResult` — one deterministic result per
task identity models the shared `LazyCache`), the staleness queries of the
lazy handles, and the driver pipeline constructors.  Raster and rt
construction can fail (the Rust calls return `Result` and the cache
`expect`s them); compute construction cannot (the Rust call returns the
object directly). -/
structure CompileEnv where
  compileResult : ShaderCompileTask → Except String Bytes
  shaderStale : ShaderCompileTask → Bool
  rasterStale : RasterPipelineShadersDesc → Bool
  rtStale : List ShaderGroupDesc → Bool
  createComputePipeline : Bytes → ComputePipelineDesc → ComputePipeline
  createRasterPipeline : RasterPipelineShaders → RasterPipelineDesc → Option RasterPipeline
  createRayTracingPipeline : List PipelineShaderGroup → RayTracingPipelineDesc →
    Option RayTracingPipeline

/-- One stage compile of the raster/rt `LazyWorker`s (the `compile` helper
in `pipeline_cache.rs`): route the stage source to the primitive task and
evaluate it in the shared cache. -/
def compileStage (env : CompileEnv) (d : PipelineShaderDesc) (profile : String) :
    Except String Bytes :=
  env.compileResult (stageCompileTask d profile)

/-- The raster `LazyWorker`: compile the vertex stage with profile vs and
the pixel stage with profile ps; both must succeed. -/
def rasterWorkerRun (env : CompileEnv) (shaders : RasterPipelineShadersDesc) :
    Except String RasterPipelineShaders :=
  match compileStage env shaders.vertex "vs" with
  | .error e => .error e
  | .ok vertex =>
    match compileStage env shaders.pixel "ps" with
    | .error e => .error e
    | .ok pixel => .ok ⟨vertex, pixel⟩

/-- Optional hit-group stage compile (the `match` over `Option` fields in
the ray-tracing `LazyWorker`). -/
def compileOptStage (env : CompileEnv) : Option PipelineShaderDesc →
    Except String (Option Bytes)
  | none => .ok none
  | some d =>
    match compileStage env d "lib" with
    | .error e => .error e
    | .ok b => .ok (some b)

/-- The ray-tracing `LazyWorker`: compile every group in order with profile
lib; all groups must succeed. -/
def rtWorkerRun (env : CompileEnv) : List ShaderGroupDesc →
    Except String (List PipelineShaderGroup)
  | [] => .ok []
  | g :: rest =>
    match g with
    | .rayGen d =>
      match compileStage env d "lib" with
      | .error e => .error e
      | .ok b =>
        match rtWorkerRun env rest with
        | .error e => .error e
        | .ok groups => .ok (.rayGen b :: groups)
    | .miss d =>
      match compileStage env d "lib" with
      | .error e => .error e
      | .ok b =>
        match rtWorkerRun env rest with
        | .error e => .error e
        | .ok groups => .ok (.miss b :: groups)
    | .hitGroup closestHit intersection =>
      match compileOptStage env closestHit with
      | .error e => .error e
      | .ok ch =>
        match compileOptStage env intersection with
        | .error e => .error e
        | .ok sec =>
          match rtWorkerRun env rest with
          | .error e => .error e
          | .ok groups => .ok (.hitGroup ch sec :: groups)

/-- Collection of the outstanding compile tasks of one arena, with their
handles, starting at index `i` (the `iter().filter_map` over entries whose
`pipeline` is `None` in `parallel_compile_shaders`). -/
def outstandingFrom {τ δ π : Type} (i : Nat) : List (CacheEntry τ δ π) → List (Nat × τ)
  | [] => []
  | e :: rest =>
    if e.pipeline.isNone then (i, e.lazyHandle) :: outstandingFrom (i + 1) rest
    else outstandingFrom (i + 1) rest

/-- Outstanding compile tasks of one arena. -/
def outstandingTasks {τ δ π : Type} (es : List (CacheEntry τ δ π)) : List (Nat × τ) :=
  outstandingFrom 0 es

/-- Joint evaluation of a list of spawned compile tasks
(`try_join_all`): the whole pass fails if any task fails, otherwise every
task's result is collected next to its handle. -/
def evalTasks {τ β : Type} (result : τ → Except String β) :
    List (Nat × τ) → Except String (List (Nat × β))
  | [] => .ok []
  | (i, t) :: rest =>
    match result t with
    | .error e => .error e
    | .ok b =>
      match evalTasks result rest with
      | .error e => .error e
      | .ok bs => .ok ((i, b) :: bs)

/-- One step of the pipeline-construction loop: look the handle up in the
arena (`get_mut(&handle).unwrap()`), build the driver object from the
compiled bytes and the entry's description, and store it; `none` embeds the
`unwrap`/`expect` panics. -/
def applyOutput {τ δ π β : Type} (build : β → δ → Option π)
    (es : List (CacheEntry τ δ π)) (out : Nat × β) : Option (List (CacheEntry τ δ π)) :=
  match es.get? out.1 with
  | none => none
  | some e =>
    match build out.2 e.desc with
    | none => none
    | some p => some (es.set out.1 { e with pipeline := some p })

/-- The pipeline-construction loop over the completed results of one kind,
in completion-list order. -/
def applyOutputs {τ δ π β : Type} (build : β → δ → Option π)
    (es : List (CacheEntry τ δ π)) : List (Nat × β) → Option (List (CacheEntry τ δ π))
  | [] => some es
  | out :: rest =>
    match applyOutput build es out with
    | none => none
    | some es' => applyOutputs build es' rest

/-- Stale invalidation of one arena: clear the materialized object exactly
when one exists and the entry's compilation unit reports staleness. -/
def invalidateStaleEntries {τ δ π : Type} (stale : τ → Bool)
    (es : List (CacheEntry τ δ π)) : List (CacheEntry τ δ π) :=
  es.map fun e =>
    if e.pipeline.isSome && stale e.lazyHandle then { e with pipeline := none } else e

/-- Stale invalidation across all three kinds
(`PipelineCache::invalidate_stale_pipelines`). -/
def PipelineCache.invalidate_stale_pipelines (env : CompileEnv) (c : PipelineCache) :
    PipelineCache :=
  { c with
    computeEntries := invalidateStaleEntries env.shaderStale c.computeEntries
    rasterEntries := invalidateStaleEntries env.rasterStale c.rasterEntries
    rtEntries := invalidateStaleEntries env.rtStale c.rtEntries }

/-- Outcome of a frame-preparation step: success with the new cache state,
an `anyhow` error with the state left behind by the `&mut self` method, or
a panic. -/
inductive CompileOutcome (σ : Type) : Type
  | ok (s : σ)
  | err (msg : String) (s : σ)
  | panic
deriving DecidableEq, Repr

/-- The parallel compile pass (`PipelineCache::parallel_compile_shaders`):
collect the outstanding tasks of the three kinds (the chained iterators,
kind-sorted: compute, raster, rt), join them all (`try_join_all` — any
failure fails the pass before anything is written back), then run the
pipeline-construction loop over the completed results.  Because the joined
list is kind-sorted and each kind's outputs touch only its own arena, the
single Rust loop is written as the three per-kind construction folds in
sequence.  An empty task list skips the join and the loop, as in the
source's emptiness check. -/
def PipelineCache.parallel_compile_shaders (env : CompileEnv) (c : PipelineCache) :
    CompileOutcome PipelineCache :=
  match evalTasks env.compileResult (outstandingTasks c.computeEntries) with
  | .error msg => .err msg c
  | .ok computeOuts =>
    match evalTasks (rasterWorkerRun env) (outstandingTasks c.rasterEntries) with
    | .error msg => .err msg c
    | .ok rasterOuts =>
      match evalTasks (rtWorkerRun env) (outstandingTasks c.rtEntries) with
      | .error msg => .err msg c
      | .ok rtOuts =>
        match applyOutputs (fun b d => some (env.createComputePipeline b d))
            c.computeEntries computeOuts with
        | none => .panic
        | some computeEntries' =>
          match applyOutputs env.createRasterPipeline c.rasterEntries rasterOuts with
          | none => .panic
          | some rasterEntries' =>
            match applyOutputs env.createRayTracingPipeline c.rtEntries rtOuts with
            | none => .panic
            | some rtEntries' =>
              .ok { c with
                computeEntries := computeEntries'
                rasterEntries := rasterEntries'
                rtEntries := rtEntries' }

/-- Frame preparation (`PipelineCache::prepare_frame`): stale invalidation
strictly before the parallel compile pass. -/
def PipelineCache.prepare_frame (env : CompileEnv) (c : PipelineCache) :
    CompileOutcome PipelineCache :=
  PipelineCache.parallel_compile_shaders env (PipelineCache.invalidate_stale_pipelines env c)

/-- Synchronization access type (`vk_sync::AccessType`, external crate).
The code mentions only `Nothing` explicitly; modelled from the spec: the
many remaining variants are collapsed into an indexed family. -/
inductive AccessType : Type
  | Nothing
  | Other (n : Nat)
deriving DecidableEq, Repr

/-- GPU-resident image (`kajiya_backend::Image`), opaque; value equality
models `Arc` identity (the device model hands out tagged values). -/
structure Image where
  id : Nat
deriving DecidableEq, Repr

/-- GPU-resident buffer (`kajiya_rg::Buffer`), opaque. -/
structure Buffer where
  id : Nat
deriving DecidableEq, Repr

/-- Image description (`ImageDesc`), external to the observed source and
treated opaquely by `temporal.rs`.  Modelled from the spec: a single opaque
component. -/
structure ImageDesc where
  restOfDesc : Nat
deriving DecidableEq, Repr

/-- Buffer description (`BufferDesc`), external to the observed source.
Modelled from the spec: a single opaque component. -/
structure BufferDesc where
  restOfDesc : Nat
deriving DecidableEq, Repr

/-- Stable string key of one temporal resource slot
(`TemporalResourceKey`). -/
structure TemporalResourceKey where
  key : String
deriving DecidableEq, Repr

/-- Lifecycle state of one temporal resource (`TemporalResourceState`).
Graph handles (`Handle<Res>`) and export handles (`ExportedHandle<Res>`)
are embedded as the raw indices the render-graph model hands out. -/
inductive TemporalResourceState (Res : Type) : Type
  | Inert (resource : Res) (accessType : AccessType)
  | Imported (resource : Res) (handle : Nat)
  | Exported (resource : Res) (handle : Nat)
deriving DecidableEq, Repr

/-- Per-kind temporal ledger (`ResMap<Res>`): association list standing in
for the `HashMap` from key to state. -/
abbrev ResMap (Res : Type) := List (TemporalResourceKey × TemporalResourceState Res)

/-- Lookup of a key's state in a ledger (first matching entry). -/
def findState {Res : Type} : ResMap Res → TemporalResourceKey →
    Option (TemporalResourceState Res)
  | [], _ => none
  | (k₁, v) :: rest, k => if k₁ = k then some v else findState rest k

/-- In-place update of an occupied key's state (the `entry` /
`get_mut` mutation path): replace the first matching entry. -/
def setState {Res : Type} : ResMap Res → TemporalResourceKey →
    TemporalResourceState Res → ResMap Res
  | [], _, _ => []
  | (k₁, v₁) :: rest, k, v =>
    if k₁ = k then (k₁, v) :: rest else (k₁, v₁) :: setState rest k v

/-- Key membership in a ledger (`contains_key`). -/
def containsKey {Res : Type} (m : ResMap Res) (k : TemporalResourceKey) : Bool :=
  (findState m k).isSome

/-- The two-kind temporal ledger (`TemporalRenderGraphState`). -/
structure TemporalRenderGraphState where
  images : ResMap Image
  buffers : ResMap Buffer
deriving DecidableEq, Repr

/-- Render-graph collaborator model: logs of imports (per resource kind)
and of pending exports.  `import` hands out the next index of its kind's
log of imports; `export` hands out the next index of its kind's export log and
records the graph handle with the access type passed. -/
structure RenderGraph where
  imageImports : List (Image × AccessType)
  bufferImports : List (Buffer × AccessType)
  imageExports : List (Nat × AccessType)
  bufferExports : List (Nat × AccessType)
deriving DecidableEq, Repr

/-- Graph import of an image (`rg.import(resource, access_type)`). -/
def RenderGraph.importImage (rg : RenderGraph) (r : Image) (a : AccessType) :
    Nat × RenderGraph :=
  (rg.imageImports.length, { rg with imageImports := rg.imageImports ++ [(r, a)] })

/-- Graph import of a buffer. -/
def RenderGraph.importBuffer (rg : RenderGraph) (r : Buffer) (a : AccessType) :
    Nat × RenderGraph :=
  (rg.bufferImports.length, { rg with bufferImports := rg.bufferImports ++ [(r, a)] })

/-- Device/allocator collaborator model: creation functions plus ghost logs
of every resource handed out, so that "no resource was created" is an
observable fact about a state. -/
structure Device where
  createImageFn : ImageDesc → Except String Image
  createBufferFn : BufferDesc → String → Except String Buffer
  createdImages : List Image
  createdBuffers : List Buffer

/-- The temporal render graph (`TemporalRenderGraph`): the frame's graph,
the device, and the ledger. -/
structure TemporalRenderGraph where
  rg : RenderGraph
  device : Device
  temporalState : TemporalRenderGraphState

/-- Ledger state whose pending exports await retirement
(`ExportedTemporalRenderGraphState`). -/
structure ExportedTemporalRenderGraphState where
  state : TemporalRenderGraphState

/-- Retired-graph collaborator model (`RetiredRenderGraph`):
`exported_resource` per resource kind, reading back the resource and its
final access type for an export handle. -/
structure RetiredRenderGraph where
  imageExportedResource : Nat → Image × AccessType
  bufferExportedResource : Nat → Buffer × AccessType

/-- Recoverable temporal errors (the `anyhow` error values): a double
claim names the offending key; a creation failure carries the context
message. -/
inductive TemporalError : Type
  | alreadyTaken (key : TemporalResourceKey)
  | creationFailed (msg : String)
deriving DecidableEq, Repr

/-- Outcome of `get_or_create_temporal`: success with the graph handle and
the updated state, a recoverable error with the state left behind by the
`&mut self` method, or the `unreachable!` panic. -/
inductive GetOrCreateResult : Type
  | ok (handle : Nat) (graph : TemporalRenderGraph)
  | err (e : TemporalError) (graph : TemporalRenderGraph)
  | panic

/-- Temporal claim of an image
(`GetOrCreateTemporal<ImageDesc>::get_or_create_temporal`): an `Inert` key
is imported at its recorded access type and becomes `Imported`; an
`Imported` key is a recoverable double-claim error naming the key; an
`Exported` key is `unreachable!`; an absent key creates a backing image
and imports it at `AccessType::Nothing`, inserted as `Imported`. -/
def TemporalRenderGraph.get_or_create_temporal_image (g : TemporalRenderGraph)
    (k : TemporalResourceKey) (desc : ImageDesc) : GetOrCreateResult :=
  match findState g.temporalState.images k with
  | some (.Inert resource accessType) =>
    let (handle, rg') := g.rg.importImage resource accessType
    .ok handle
      { g with
        rg := rg'
        temporalState :=
          { g.temporalState with
            images := setState g.temporalState.images k (.Imported resource handle) } }
  | some (.Imported _ _) => .err (.alreadyTaken k) g
  | some (.Exported _ _) => .panic
  | none =>
    match g.device.createImageFn desc with
    | .error e => .err (.creationFailed ("Creating image: " ++ e)) g
    | .ok resource =>
      let device' := { g.device with createdImages := g.device.createdImages ++ [resource] }
      let (handle, rg') := g.rg.importImage resource AccessType.Nothing
      .ok handle
        { g with
          rg := rg'
          device := device'
          temporalState :=
            { g.temporalState with
              images := g.temporalState.images ++ [(k, .Imported resource handle)] } }

/-- Temporal claim of a buffer
(`GetOrCreateTemporal<BufferDesc>::get_or_create_temporal`); the backing
buffer is created from the description and the key's string. -/
def TemporalRenderGraph.get_or_create_temporal_buffer (g : TemporalRenderGraph)
    (k : TemporalResourceKey) (desc : BufferDesc) : GetOrCreateResult :=
  match findState g.temporalState.buffers k with
  | some (.Inert resource accessType) =>
    let (handle, rg') := g.rg.importBuffer resource accessType
    .ok handle
      { g with
        rg := rg'
        temporalState :=
          { g.temporalState with
            buffers := setState g.temporalState.buffers k (.Imported resource handle) } }
  | some (.Imported _ _) => .err (.alreadyTaken k) g
  | some (.Exported _ _) => .panic
  | none =>
    match g.device.createBufferFn desc k.key with
    | .error e => .err (.creationFailed e) g
    | .ok resource =>
      let device' := { g.device with createdBuffers := g.device.createdBuffers ++ [resource] }
      let (handle, rg') := g.rg.importBuffer resource AccessType.Nothing
      .ok handle
        { g with
          rg := rg'
          device := device'
          temporalState :=
            { g.temporalState with
              buffers := g.temporalState.buffers ++ [(k, .Imported resource handle)] } }

/-- Export sweep over one ledger (`export_temporal_resources`), threading
the graph's export log: `Inert` entries are untouched, `Imported` entries
are exported at `AccessType::Nothing` and become `Exported` with the handle
the graph hands out, and observing `Exported` is `unreachable!` (`none`). -/
def exportStates {Res : Type} (exps : List (Nat × AccessType)) :
    ResMap Res → Option (List (Nat × AccessType) × ResMap Res)
  | [] => some (exps, [])
  | (k, st) :: rest =>
    match st with
    | .Inert r a =>
      match exportStates exps rest with
      | none => none
      | some (exps', rest') => some (exps', (k, .Inert r a) :: rest')
    | .Imported r h =>
      let eh := exps.length
      match exportStates (exps ++ [(h, AccessType.Nothing)]) rest with
      | none => none
      | some (exps', rest') => some (exps', (k, .Exported r eh) :: rest')
    | .Exported _ _ => none

/-- Export of the whole temporal state
(`TemporalRenderGraph::export_temporal`): images then buffers, returning
the graph and the exported ledger; `none` embeds the `unreachable!`. -/
def TemporalRenderGraph.export_temporal (g : TemporalRenderGraph) :
    Option (RenderGraph × ExportedTemporalRenderGraphState) :=
  match exportStates g.rg.imageExports g.temporalState.images with
  | none => none
  | some (imageExps, images') =>
    match exportStates g.rg.bufferExports g.temporalState.buffers with
    | none => none
    | some (bufferExps, buffers') =>
      some ({ g.rg with imageExports := imageExps, bufferExports := bufferExps },
        ⟨{ images := images', buffers := buffers' }⟩)

/-- Retirement sweep over one ledger (`retire_temporal_resources`):
`Inert` entries are untouched, `Exported` entries return to `Inert` with
the ledger's resource and the access type the retired graph reports for the
export handle, and observing `Imported` is `unreachable!` (`none`). -/
def retireStates {Res : Type} (exportedResource : Nat → Res × AccessType) :
    ResMap Res → Option (ResMap Res)
  | [] => some []
  | (k, st) :: rest =>
    match st with
    | .Inert r a =>
      match retireStates exportedResource rest with
      | none => none
      | some rest' => some ((k, .Inert r a) :: rest')
    | .Imported _ _ => none
    | .Exported r h =>
      match retireStates exportedResource rest with
      | none => none
      | some rest' => some ((k, .Inert r (exportedResource h).2) :: rest')

/-- Retirement of the whole exported state
(`ExportedTemporalRenderGraphState::retire_temporal`). -/
def ExportedTemporalRenderGraphState.retire_temporal
    (e : ExportedTemporalRenderGraphState) (ret : RetiredRenderGraph) :
    Option TemporalRenderGraphState :=
  match retireStates ret.imageExportedResource e.state.images with
  | none => none
  | some images' =>
    match retireStates ret.bufferExportedResource e.state.buffers with
    | none => none
    | some buffers' => some { images := images', buffers := buffers' }

/-- Downgrade applied by `reuse_from_resources` to an entry copied into a
fresh ledger: an `Inert` entry is kept as-is (`res @ Inert { .. } => res`),
an `Imported` or `Exported` entry keeps its resource but becomes `Inert`
with the conservative `AccessType::Nothing`. -/
def downgradeState {Res : Type} : TemporalResourceState Res → TemporalResourceState Res
  | .Inert r a => .Inert r a
  | .Imported r _ => .Inert r AccessType.Nothing
  | .Exported r _ => .Inert r AccessType.Nothing

/-- Merge of an old ledger into a fresh one
(`TemporalRenderGraphState::reuse_from_resources`): keys already present
keep their entry; missing keys are inserted, downgraded. -/
def reuseFromResources {Res : Type} (selfMap : ResMap Res) : ResMap Res → ResMap Res
  | [] => selfMap
  | (resKey, res) :: rest =>
    if containsKey selfMap resKey then reuseFromResources selfMap rest
    else reuseFromResources (selfMap ++ [(resKey, downgradeState res)]) rest

/-- Merge of both ledgers (`TemporalRenderGraphState::reuse_from`):
buffers, then images. -/
def TemporalRenderGraphState.reuse_from (s : TemporalRenderGraphState)
    (other : TemporalRenderGraphState) : TemporalRenderGraphState :=
  { buffers := reuseFromResources s.buffers other.buffers
    images := reuseFromResources s.images other.images }

/-- A ledger with no `Exported` entry (every claim about one frame's
protocol starts from such a state). -/
def noExported {Res : Type} (m : ResMap Res) : Prop :=
  ∀ p ∈ m, ∀ r h, p.2 ≠ TemporalResourceState.Exported r h

/-- A ledger with no `Imported` entry (the shape export leaves behind). -/
def noImported {Res : Type} (m : ResMap Res) : Prop :=
  ∀ p ∈ m, ∀ r h, p.2 ≠ TemporalResourceState.Imported r h

/-- Well-formedness of one deduplication index relative to its arena: every
recorded handle is allocated, and distinct keys map to distinct handles.
Every cache reachable by registrations from `PipelineCache.new` satisfies
this for all three kinds. -/
def mapWF {κ : Type} (m : List (κ × Nat)) (len : Nat) : Prop :=
  (∀ p ∈ m, p.2 < len) ∧ ∀ p ∈ m, ∀ q ∈ m, p.2 = q.2 → p.1 = q.1

/-- Well-formedness of the whole pipeline cache. -/
def PipelineCache.WF (c : PipelineCache) : Prop :=
  mapWF c.computeShaderToHandle c.computeEntries.length ∧
  mapWF c.rasterShadersToHandle c.rasterEntries.length ∧
  mapWF c.rtShadersToHandle c.rtEntries.length

/-- Sample compile environment whose every shader compile fails. -/
def sampleEnvFail : CompileEnv :=
  { compileResult := fun _ => .error "boom"
    shaderStale := fun _ => false
    rasterStale := fun _ => false
    rtStale := fun _ => false
    createComputePipeline := fun b _ => ⟨b⟩
    createRasterPipeline := fun s _ => some ⟨s.vertex⟩
    createRayTracingPipeline := fun _ _ => some ⟨0⟩ }

/-- Sample compile environment whose every shader compile succeeds with
blob 7 and where exactly the task for path "stale" is reported stale. -/
def sampleEnvOk : CompileEnv :=
  { compileResult := fun _ => .ok 7
    shaderStale := fun t => t = ShaderCompileTask.hlslShader "stale" "cs"
    rasterStale := fun _ => false
    rtStale := fun _ => false
    createComputePipeline := fun b _ => ⟨b⟩
    createRasterPipeline := fun s _ => some ⟨s.vertex⟩
    createRayTracingPipeline := fun _ _ => some ⟨0⟩ }

/-- Sample cache with one outstanding compute entry. -/
def sampleCacheOutstanding : PipelineCache :=
  { PipelineCache.new with
    computeEntries := [⟨.hlslShader "a" "cs", ⟨.hlsl "a", 0⟩, none⟩]
    computeShaderToHandle := [(.hlsl "a", 0)] }

/-- Sample cache with two compiled compute entries, the first of which is
stale under `sampleEnvOk`. -/
def sampleCacheCompiled : PipelineCache :=
  { PipelineCache.new with
    computeEntries :=
      [⟨.hlslShader "stale" "cs", ⟨.hlsl "stale", 0⟩, some ⟨5⟩⟩,
       ⟨.hlslShader "keep" "cs", ⟨.hlsl "keep", 0⟩, some ⟨6⟩⟩]
    computeShaderToHandle := [(.hlsl "stale", 0), (.hlsl "keep", 1)] }

/-- Sample device handing out resources tagged by the description. -/
def sampleDevice : Device :=
  { createImageFn := fun d => .ok ⟨d.restOfDesc⟩
    createBufferFn := fun d _ => .ok ⟨d.restOfDesc⟩
    createdImages := []
    createdBuffers := [] }

/-- Sample fresh render graph with empty logs. -/
def sampleRenderGraph : RenderGraph :=
  { imageImports := [], bufferImports := [], imageExports := [], bufferExports := [] }

/-- Sample retired graph reporting a distinct final access per export
handle. -/
def sampleRetired : RetiredRenderGraph :=
  { imageExportedResource := fun eh => (⟨9⟩, AccessType.Other eh)
    bufferExportedResource := fun eh => (⟨9⟩, AccessType.Other (eh + 10)) }

/-- Sample temporal graph whose key "history" is already claimed. -/
def sampleTRGImported : TemporalRenderGraph :=
  { rg := sampleRenderGraph
    device := sampleDevice
    temporalState := { images := [(⟨"history"⟩, .Imported ⟨3⟩ 0)], buffers := [] } }

/-- Sample temporal graph whose key "history" is inert. -/
def sampleTRGInert : TemporalRenderGraph :=
  { rg := sampleRenderGraph
    device := sampleDevice
    temporalState :=
      { images := [(⟨"history"⟩, .Inert ⟨3⟩ (AccessType.Other 2))], buffers := [] } }

/-- Sample temporal graph mid-frame: one inert image, one imported image,
one imported buffer, no exported entry. -/
def sampleTRGRound : TemporalRenderGraph :=
  { rg := sampleRenderGraph
    device := sampleDevice
    temporalState :=
      { images := [(⟨"hist"⟩, .Inert ⟨3⟩ (AccessType.Other 2)), (⟨"cur"⟩, .Imported ⟨4⟩ 0)]
        buffers := [(⟨"buf"⟩, .Imported ⟨5⟩ 1)] } }

/-- Sample fresh ledger about to reuse an old one. -/
def sampleLedgerSelf : TemporalRenderGraphState :=
  { images := [(⟨"a"⟩, .Inert ⟨1⟩ (AccessType.Other 5))], buffers := [] }

/-- Sample old ledger carrying an entry that shadows one of
`sampleLedgerSelf` and entries in each of the three states. -/
def sampleLedgerOther : TemporalRenderGraphState :=
  { images := [(⟨"a"⟩, .Inert ⟨9⟩ (AccessType.Other 7)), (⟨"b"⟩, .Imported ⟨2⟩ 0)]
    buffers := [(⟨"c"⟩, .Exported ⟨6⟩ 2)] }

/-! Lemmas about the deduplication indices and registration. -/

theorem lookupHandle_mem {κ : Type} [DecidableEq κ] {m : List (κ × Nat)} {k : κ} {h : Nat}
    (hl : lookupHandle m k = some h) : (k, h) ∈ m := by
  induction m with
  | nil => simp [lookupHandle] at hl
  | cons p rest ih =>
    obtain ⟨k₁, h₁⟩ := p
    by_cases hk : k₁ = k
    · subst hk
      simp [lookupHandle] at hl
      subst hl
      exact List.mem_cons_self _ _
    · simp [lookupHandle, hk] at hl
      exact List.mem_cons_of_mem _ (ih hl)

theorem mapWF_lookup_lt {κ : Type} [DecidableEq κ] {m : List (κ × Nat)} {len : Nat} {k : κ}
    {h : Nat} (hwf : mapWF m len) (hl : lookupHandle m k = some h) : h < len :=
  hwf.1 _ (lookupHandle_mem hl)

theorem mapWF_lookup_inj {κ : Type} [DecidableEq κ] {m : List (κ × Nat)} {len : Nat}
    {k₁ k₂ : κ} {h₁ h₂ : Nat} (hwf : mapWF m len) (hl₁ : lookupHandle m k₁ = some h₁)
    (hl₂ : lookupHandle m k₂ = some h₂) (hk : k₁ ≠ k₂) : h₁ ≠ h₂ := by
  intro he
  exact hk (hwf.2 _ (lookupHandle_mem hl₁) _ (lookupHandle_mem hl₂) he)

theorem lookupHandle_cons_self {κ : Type} [DecidableEq κ] (m : List (κ × Nat)) (k : κ)
    (h : Nat) : lookupHandle ((k, h) :: m) k = some h := by
  simp [lookupHandle]

theorem lookupHandle_cons_ne {κ : Type} [DecidableEq κ] (m : List (κ × Nat)) {k₁ k : κ}
    (h : Nat) (hk : k₁ ≠ k) : lookupHandle ((k₁, h) :: m) k = lookupHandle m k := by
  simp [lookupHandle, hk]

theorem mapWF_insert {κ : Type} [DecidableEq κ] {m : List (κ × Nat)} {len : Nat} (k : κ)
    (hwf : mapWF m len) : mapWF ((k, len) :: m) (len + 1) := by
  constructor
  · intro p hp
    rcases List.mem_cons.mp hp with h | h
    · subst h; omega
    · exact Nat.lt_succ_of_lt (hwf.1 _ h)
  · intro p hp q hq he
    rcases List.mem_cons.mp hp with h | h <;> rcases List.mem_cons.mp hq with h' | h'
    · rw [h, h']
    · subst h; exact absurd he.symm (Nat.ne_of_lt (hwf.1 _ h'))
    · subst h'; exact absurd he (Nat.ne_of_lt (hwf.1 _ h))
    · exact hwf.2 _ h _ h' he

theorem register_compute_WF {c : PipelineCache} (d : ComputePipelineDesc) (hwf : c.WF) :
    (c.register_compute d).2.WF := by
  unfold PipelineCache.register_compute
  cases hl : lookupHandle c.computeShaderToHandle d.source with
  | some h => exact hwf
  | none =>
    refine ⟨?_, hwf.2.1, hwf.2.2⟩
    simpa using mapWF_insert d.source hwf.1

theorem register_raster_WF {c : PipelineCache} (s : RasterPipelineShadersDesc)
    (d : RasterPipelineDesc) (hwf : c.WF) : (c.register_raster s d).2.WF := by
  unfold PipelineCache.register_raster
  cases hl : lookupHandle c.rasterShadersToHandle s with
  | some h => exact hwf
  | none =>
    refine ⟨hwf.1, ?_, hwf.2.2⟩
    simpa using mapWF_insert s hwf.2.1

theorem register_ray_tracing_WF {c : PipelineCache} (s : List ShaderGroupDesc)
    (d : RayTracingPipelineDesc) (hwf : c.WF) : (c.register_ray_tracing s d).2.WF := by
  unfold PipelineCache.register_ray_tracing
  cases hl : lookupHandle c.rtShadersToHandle s with
  | some h => exact hwf
  | none =>
    refine ⟨hwf.1, hwf.2.1, ?_⟩
    simpa using mapWF_insert s hwf.2.2

theorem register_compute_lookup (c : PipelineCache) (d : ComputePipelineDesc) :
    lookupHandle (c.register_compute d).2.computeShaderToHandle d.source =
      some (c.register_compute d).1.val := by
  unfold PipelineCache.register_compute
  cases hl : lookupHandle c.computeShaderToHandle d.source with
  | some h => simpa using hl
  | none => simp [lookupHandle_cons_self]

theorem register_raster_lookup (c : PipelineCache) (s : RasterPipelineShadersDesc)
    (d : RasterPipelineDesc) :
    lookupHandle (c.register_raster s d).2.rasterShadersToHandle s =
      some (c.register_raster s d).1.val := by
  unfold PipelineCache.register_raster
  cases hl : lookupHandle c.rasterShadersToHandle s with
  | some h => simpa using hl
  | none => simp [lookupHandle_cons_self]

theorem register_ray_tracing_lookup (c : PipelineCache) (s : List ShaderGroupDesc)
    (d : RayTracingPipelineDesc) :
    lookupHandle (c.register_ray_tracing s d).2.rtShadersToHandle s =
      some (c.register_ray_tracing s d).1.val := by
  unfold PipelineCache.register_ray_tracing
  cases hl : lookupHandle c.rtShadersToHandle s with
  | some h => simpa using hl
  | none => simp [lookupHandle_cons_self]

theorem register_compute_occupied {c : PipelineCache} {d : ComputePipelineDesc} {h : Nat}
    (hl : lookupHandle c.computeShaderToHandle d.source = some h) :
    c.register_compute d = (⟨h⟩, c) := by
  unfold PipelineCache.register_compute
  rw [hl]

theorem register_compute_vacant {c : PipelineCache} {d : ComputePipelineDesc}
    (hl : lookupHandle c.computeShaderToHandle d.source = none) :
    c.register_compute d =
      (⟨c.computeEntries.length⟩,
        { c with
          computeEntries := c.computeEntries ++ [⟨computeCompileTask d.source, d, none⟩]
          computeShaderToHandle :=
            (d.source, c.computeEntries.length) :: c.computeShaderToHandle }) := by
  unfold PipelineCache.register_compute
  rw [hl]

theorem register_raster_occupied {c : PipelineCache} {s : RasterPipelineShadersDesc}
    {d : RasterPipelineDesc} {h : Nat} (hl : lookupHandle c.rasterShadersToHandle s = some h) :
    c.register_raster s d = (⟨h⟩, c) := by
  unfold PipelineCache.register_raster
  rw [hl]

theorem register_raster_vacant {c : PipelineCache} {s : RasterPipelineShadersDesc}
    {d : RasterPipelineDesc} (hl : lookupHandle c.rasterShadersToHandle s = none) :
    c.register_raster s d =
      (⟨c.rasterEntries.length⟩,
        { c with
          rasterShadersToHandle := (s, c.rasterEntries.length) :: c.rasterShadersToHandle
          rasterEntries := c.rasterEntries ++ [⟨s, d, none⟩] }) := by
  unfold PipelineCache.register_raster
  rw [hl]

theorem register_ray_tracing_occupied {c : PipelineCache} {s : List ShaderGroupDesc}
    {d : RayTracingPipelineDesc} {h : Nat} (hl : lookupHandle c.rtShadersToHandle s = some h) :
    c.register_ray_tracing s d = (⟨h⟩, c) := by
  unfold PipelineCache.register_ray_tracing
  rw [hl]

theorem register_ray_tracing_vacant {c : PipelineCache} {s : List ShaderGroupDesc}
    {d : RayTracingPipelineDesc} (hl : lookupHandle c.rtShadersToHandle s = none) :
    c.register_ray_tracing s d =
      (⟨c.rtEntries.length⟩,
        { c with
          rtShadersToHandle := (s, c.rtEntries.length) :: c.rtShadersToHandle
          rtEntries := c.rtEntries ++ [⟨s, d, none⟩] }) := by
  unfold PipelineCache.register_ray_tracing
  rw [hl]

/-- C2: registration is idempotent and deterministic: for every pipeline
kind and every cache state, registering an equal description a second time
returns the same handle and the second call leaves the whole cache state
(entry arenas and dedup indices) unchanged — no new entry, no new
compilation unit. -/
theorem C2_register_idempotent (c : PipelineCache) :
    (∀ d : ComputePipelineDesc,
      (c.register_compute d).2.register_compute d =
        ((c.register_compute d).1, (c.register_compute d).2)) ∧
    (∀ (s : RasterPipelineShadersDesc) (d : RasterPipelineDesc),
      (c.register_raster s d).2.register_raster s d =
        ((c.register_raster s d).1, (c.register_raster s d).2)) ∧
    (∀ (s : List ShaderGroupDesc) (d : RayTracingPipelineDesc),
      (c.register_ray_tracing s d).2.register_ray_tracing s d =
        ((c.register_ray_tracing s d).1, (c.register_ray_tracing s d).2)) := by
  refine ⟨fun d => ?_, fun s d => ?_, fun s d => ?_⟩
  · exact register_compute_occupied (register_compute_lookup c d)
  · exact register_raster_occupied (register_raster_lookup c s d)
  · exact register_ray_tracing_occupied (register_ray_tracing_lookup c s d)

/-- C1 counterexample: registering two distinct raster descriptions — the
same shader set but different pipeline descriptions — returns the same
handle twice, so distinct descriptions do not always yield distinct
handles. -/
theorem C1_counterexample :
    (⟨0⟩ : RasterPipelineDesc) ≠ (⟨1⟩ : RasterPipelineDesc) ∧
    ((PipelineCache.new.register_raster ⟨⟨.hlsl "v", 0⟩, ⟨.hlsl "p", 0⟩⟩ ⟨0⟩).2.register_raster
        ⟨⟨.hlsl "v", 0⟩, ⟨.hlsl "p", 0⟩⟩ ⟨1⟩).1 =
      (PipelineCache.new.register_raster ⟨⟨.hlsl "v", 0⟩, ⟨.hlsl "p", 0⟩⟩ ⟨0⟩).1 := by
  constructor
  · decide
  · rfl

/-- C1 (amended): for every pipeline kind, registering two descriptions
with distinct deduplication keys (compute: the shader source; raster: the
shader-set description; ray-tracing: the shader-group list) yields two
distinct handles, for every well-formed cache; and handles of different
kinds never compare equal even when their raw values coincide, the three
handle types being distinct.  Registrations that differ only in the
non-key part of the description reuse the same handle
(`C1_counterexample`). -/
theorem C1_distinct_keys_distinct_handles (c : PipelineCache) (hwf : c.WF) :
    (∀ d₁ d₂ : ComputePipelineDesc, d₁.source ≠ d₂.source →
      ((c.register_compute d₁).2.register_compute d₂).1 ≠ (c.register_compute d₁).1) ∧
    (∀ (s₁ s₂ : RasterPipelineShadersDesc) (d₁ d₂ : RasterPipelineDesc), s₁ ≠ s₂ →
      ((c.register_raster s₁ d₁).2.register_raster s₂ d₂).1 ≠ (c.register_raster s₁ d₁).1) ∧
    (∀ (s₁ s₂ : List ShaderGroupDesc) (d₁ d₂ : RayTracingPipelineDesc), s₁ ≠ s₂ →
      ((c.register_ray_tracing s₁ d₁).2.register_ray_tracing s₂ d₂).1 ≠
        (c.register_ray_tracing s₁ d₁).1) ∧
    (∀ (h₁ : ComputePipelineHandle) (h₂ : RasterPipelineHandle),
      AnyPipelineHandle.compute h₁ ≠ AnyPipelineHandle.raster h₂) ∧
    (∀ (h₁ : ComputePipelineHandle) (h₂ : RtPipelineHandle),
      AnyPipelineHandle.compute h₁ ≠ AnyPipelineHandle.rt h₂) ∧
    (∀ (h₁ : RasterPipelineHandle) (h₂ : RtPipelineHandle),
      AnyPipelineHandle.raster h₁ ≠ AnyPipelineHandle.rt h₂) := by
  refine ⟨fun d₁ d₂ hne => ?_, fun s₁ s₂ d₁ d₂ hne => ?_, fun s₁ s₂ d₁ d₂ hne => ?_,
    fun h₁ h₂ => by simp, fun h₁ h₂ => by simp, fun h₁ h₂ => by simp⟩
  · cases hl₁ : lookupHandle c.computeShaderToHandle d₁.source with
    | some h₁ =>
      rw [register_compute_occupied hl₁]
      cases hl₂ : lookupHandle c.computeShaderToHandle d₂.source with
      | some h₂ =>
        rw [register_compute_occupied hl₂]
        simpa using mapWF_lookup_inj hwf.1 hl₂ hl₁ (Ne.symm hne)
      | none =>
        rw [register_compute_vacant hl₂]
        simpa using (Nat.ne_of_lt (mapWF_lookup_lt hwf.1 hl₁)).symm
    | none =>
      rw [register_compute_vacant hl₁]
      have hl₂' : lookupHandle
          ((d₁.source, c.computeEntries.length) :: c.computeShaderToHandle) d₂.source =
          lookupHandle c.computeShaderToHandle d₂.source :=
        lookupHandle_cons_ne _ _ hne
      cases hl₂ : lookupHandle c.computeShaderToHandle d₂.source with
      | some h₂ =>
        rw [register_compute_occupied (show lookupHandle _ d₂.source = some h₂ from
          hl₂'.trans hl₂)]
        simpa using Nat.ne_of_lt (mapWF_lookup_lt hwf.1 hl₂)
      | none =>
        rw [register_compute_vacant (show lookupHandle _ d₂.source = none from
          hl₂'.trans hl₂)]
        simp
  · cases hl₁ : lookupHandle c.rasterShadersToHandle s₁ with
    | some h₁ =>
      rw [register_raster_occupied hl₁]
      cases hl₂ : lookupHandle c.rasterShadersToHandle s₂ with
      | some h₂ =>
        rw [register_raster_occupied hl₂]
        simpa using mapWF_lookup_inj hwf.2.1 hl₂ hl₁ (Ne.symm hne)
      | none =>
        rw [register_raster_vacant hl₂]
        simpa using (Nat.ne_of_lt (mapWF_lookup_lt hwf.2.1 hl₁)).symm
    | none =>
      rw [register_raster_vacant hl₁]
      have hl₂' : lookupHandle
          ((s₁, c.rasterEntries.length) :: c.rasterShadersToHandle) s₂ =
          lookupHandle c.rasterShadersToHandle s₂ :=
        lookupHandle_cons_ne _ _ hne
      cases hl₂ : lookupHandle c.rasterShadersToHandle s₂ with
      | some h₂ =>
        rw [register_raster_occupied (show lookupHandle _ s₂ = some h₂ from hl₂'.trans hl₂)]
        simpa using Nat.ne_of_lt (mapWF_lookup_lt hwf.2.1 hl₂)
      | none =>
        rw [register_raster_vacant (show lookupHandle _ s₂ = none from hl₂'.trans hl₂)]
        simp
  · cases hl₁ : lookupHandle c.rtShadersToHandle s₁ with
    | some h₁ =>
      rw [register_ray_tracing_occupied hl₁]
      cases hl₂ : lookupHandle c.rtShadersToHandle s₂ with
      | some h₂ =>
        rw [register_ray_tracing_occupied hl₂]
        simpa using mapWF_lookup_inj hwf.2.2 hl₂ hl₁ (Ne.symm hne)
      | none =>
        rw [register_ray_tracing_vacant hl₂]
        simpa using (Nat.ne_of_lt (mapWF_lookup_lt hwf.2.2 hl₁)).symm
    | none =>
      rw [register_ray_tracing_vacant hl₁]
      have hl₂' : lookupHandle ((s₁, c.rtEntries.length) :: c.rtShadersToHandle) s₂ =
          lookupHandle c.rtShadersToHandle s₂ :=
        lookupHandle_cons_ne _ _ hne
      cases hl₂ : lookupHandle c.rtShadersToHandle s₂ with
      | some h₂ =>
        rw [register_ray_tracing_occupied (show lookupHandle _ s₂ = some h₂ from
          hl₂'.trans hl₂)]
        simpa using Nat.ne_of_lt (mapWF_lookup_lt hwf.2.2 hl₂)
      | none =>
        rw [register_ray_tracing_vacant (show lookupHandle _ s₂ = none from hl₂'.trans hl₂)]
        simp

/-- C1 witness: the empty cache is well-formed, and two compute
registrations with distinct shader sources yield distinct handles. -/
theorem C1_distinct_keys_distinct_handles_witness :
    PipelineCache.new.WF ∧
    ((PipelineCache.new.register_compute ⟨.hlsl "a", 0⟩).2.register_compute
        ⟨.hlsl "b", 0⟩).1 ≠ (PipelineCache.new.register_compute ⟨.hlsl "a", 0⟩).1 := by
  have hwf : PipelineCache.new.WF := by
    refine ⟨⟨?_, ?_⟩, ⟨?_, ?_⟩, ⟨?_, ?_⟩⟩ <;> simp [PipelineCache.new]
  exact ⟨hwf, (C1_distinct_keys_distinct_handles PipelineCache.new hwf).1
    ⟨.hlsl "a", 0⟩ ⟨.hlsl "b", 0⟩ (by decide)⟩

/-! Lemmas about outstanding-task collection, the join, and the
construction loop. -/

theorem mem_outstandingFrom_of {τ δ π : Type} {es : List (CacheEntry τ δ π)} {j : Nat}
    {e : CacheEntry τ δ π} (hg : es.get? j = some e) (hp : e.pipeline = none) (i : Nat) :
    (i + j, e.lazyHandle) ∈ outstandingFrom i es := by
  induction es generalizing i j with
  | nil => simp at hg
  | cons e₀ rest ih =>
    cases j with
    | zero =>
      simp at hg
      subst hg
      simp [outstandingFrom, hp]
    | succ j =>
      rw [List.get?_cons_succ] at hg
      have hmem := ih hg (i + 1)
      unfold outstandingFrom
      have harith : i + 1 + j = i + (j + 1) := by omega
      by_cases hp₀ : e₀.pipeline.isNone
      · rw [if_pos hp₀]
        exact List.mem_cons_of_mem _ (harith ▸ hmem)
      · rw [if_neg hp₀]
        exact harith ▸ hmem

theorem of_mem_outstandingFrom {τ δ π : Type} {es : List (CacheEntry τ δ π)} {i n : Nat}
    {t : τ} (hm : (n, t) ∈ outstandingFrom i es) :
    ∃ j e, n = i + j ∧ es.get? j = some e ∧ e.pipeline = none ∧ t = e.lazyHandle := by
  induction es generalizing i with
  | nil => simp [outstandingFrom] at hm
  | cons e₀ rest ih =>
    unfold outstandingFrom at hm
    by_cases hp₀ : e₀.pipeline.isNone
    · rw [if_pos hp₀] at hm
      rcases List.mem_cons.mp hm with h | h
      · have hn : n = i := congrArg Prod.fst h
        have ht : t = e₀.lazyHandle := congrArg Prod.snd h
        exact ⟨0, e₀, by omega, rfl, Option.isNone_iff_eq_none.mp hp₀, ht⟩
      · rcases ih h with ⟨j, e, hn, hg, hp, ht⟩
        exact ⟨j + 1, e, by omega, by simpa using hg, hp, ht⟩
    · rw [if_neg hp₀] at hm
      rcases ih hm with ⟨j, e, hn, hg, hp, ht⟩
      exact ⟨j + 1, e, by omega, by simpa using hg, hp, ht⟩

theorem outstandingFrom_fst_ge {τ δ π : Type} {es : List (CacheEntry τ δ π)} {i : Nat} :
    ∀ p ∈ outstandingFrom i es, i ≤ p.1 := by
  intro p hp
  obtain ⟨n, t⟩ := p
  rcases of_mem_outstandingFrom hp with ⟨j, e, hn, _, _, _⟩
  omega

theorem outstandingFrom_pairwise {τ δ π : Type} (es : List (CacheEntry τ δ π)) (i : Nat) :
    (outstandingFrom i es).Pairwise fun p q => p.1 < q.1 := by
  induction es generalizing i with
  | nil => simp [outstandingFrom]
  | cons e₀ rest ih =>
    unfold outstandingFrom
    by_cases hp₀ : e₀.pipeline.isNone
    · rw [if_pos hp₀]
      refine List.Pairwise.cons ?_ (ih (i + 1))
      intro q hq
      have := outstandingFrom_fst_ge q hq
      omega
    · rw [if_neg hp₀]
      exact ih (i + 1)

theorem outstandingTasks_fst_nodup {τ δ π : Type} (es : List (CacheEntry τ δ π)) :
    ((outstandingTasks es).map Prod.fst).Nodup := by
  have hpw := outstandingFrom_pairwise es 0
  have : ((outstandingTasks es).map Prod.fst).Pairwise (· < ·) :=
    List.pairwise_map.mpr hpw
  exact List.Pairwise.imp Nat.ne_of_lt this

theorem evalTasks_error_of_mem {τ β : Type} {result : τ → Except String β}
    {ts : List (Nat × τ)} {i : Nat} {t : τ} {m : String} (hm : (i, t) ∈ ts)
    (hr : result t = .error m) : ∃ msg, evalTasks result ts = .error msg := by
  induction ts with
  | nil => simp at hm
  | cons p rest ih =>
    obtain ⟨i₀, t₀⟩ := p
    unfold evalTasks
    cases hr₀ : result t₀ with
    | error e => exact ⟨e, rfl⟩
    | ok b₀ =>
      rcases List.mem_cons.mp hm with h | h
      · have ht : t = t₀ := congrArg Prod.snd h
        rw [ht, hr₀] at hr
        exact absurd hr (by simp)
      · rcases ih h with ⟨msg, hmsg⟩
        rw [hmsg]
        exact ⟨msg, rfl⟩

theorem evalTasks_ok_get? {τ β : Type} {result : τ → Except String β} {ts : List (Nat × τ)}
    {outs : List (Nat × β)} (h : evalTasks result ts = .ok outs) :
    ∀ j i t, ts.get? j = some (i, t) → ∃ b, result t = .ok b ∧ outs.get? j = some (i, b) := by
  induction ts generalizing outs with
  | nil => intro j i t hg; simp at hg
  | cons p rest ih =>
    obtain ⟨i₀, t₀⟩ := p
    intro j i t hg
    unfold evalTasks at h
    cases hr : result t₀ with
    | error e => rw [hr] at h; simp at h
    | ok b₀ =>
      rw [hr] at h
      cases he : evalTasks result rest with
      | error e => rw [he] at h; simp at h
      | ok bs =>
        rw [he] at h
        simp at h
        subst h
        cases j with
        | zero =>
          simp at hg
          obtain ⟨hi, ht⟩ := hg
          subst hi
          subst ht
          exact ⟨b₀, hr, rfl⟩
        | succ j =>
          rw [List.get?_cons_succ] at hg
          simpa using ih he j i t hg

theorem evalTasks_ok_fst {τ β : Type} {result : τ → Except String β} {ts : List (Nat × τ)}
    {outs : List (Nat × β)} (h : evalTasks result ts = .ok outs) :
    outs.map Prod.fst = ts.map Prod.fst := by
  induction ts generalizing outs with
  | nil =>
    unfold evalTasks at h
    simp at h
    subst h
    rfl
  | cons p rest ih =>
    obtain ⟨i₀, t₀⟩ := p
    unfold evalTasks at h
    cases hr : result t₀ with
    | error e => rw [hr] at h; simp at h
    | ok b₀ =>
      rw [hr] at h
      cases he : evalTasks result rest with
      | error e => rw [he] at h; simp at h
      | ok bs =>
        rw [he] at h
        simp at h
        subst h
        simpa using ih he

theorem evalTasks_ok_of_mem {τ β : Type} {result : τ → Except String β} {ts : List (Nat × τ)}
    {outs : List (Nat × β)} {i : Nat} {t : τ} (h : evalTasks result ts = .ok outs)
    (hm : (i, t) ∈ ts) : ∃ b, result t = .ok b ∧ (i, b) ∈ outs := by
  rcases List.get?_of_mem hm with ⟨j, hj⟩
  rcases evalTasks_ok_get? h j i t hj with ⟨b, hb, ho⟩
  exact ⟨b, hb, List.get?_mem ho⟩

theorem applyOutput_some_inv {τ δ π β : Type} {build : β → δ → Option π}
    {es es' : List (CacheEntry τ δ π)} {out : Nat × β}
    (h : applyOutput build es out = some es') :
    ∃ e p, es.get? out.1 = some e ∧ build out.2 e.desc = some p ∧
      es' = es.set out.1 { e with pipeline := some p } := by
  unfold applyOutput at h
  split at h
  next => cases h
  next e hg =>
    split at h
    next => cases h
    next p hb =>
      cases h
      exact ⟨e, p, hg, hb, rfl⟩

theorem applyOutputs_length {τ δ π β : Type} {build : β → δ → Option π}
    {es es' : List (CacheEntry τ δ π)} {outs : List (Nat × β)}
    (h : applyOutputs build es outs = some es') : es'.length = es.length := by
  induction outs generalizing es with
  | nil =>
    unfold applyOutputs at h
    cases h
    rfl
  | cons out rest ih =>
    unfold applyOutputs at h
    split at h
    next => cases h
    next es₁ ha =>
      rcases applyOutput_some_inv ha with ⟨e, p, _, _, hset⟩
      rw [ih h, hset, List.length_set]

theorem applyOutputs_get?_not_mem {τ δ π β : Type} {build : β → δ → Option π}
    {es es' : List (CacheEntry τ δ π)} {outs : List (Nat × β)} {i : Nat}
    (hnm : i ∉ outs.map Prod.fst) (h : applyOutputs build es outs = some es') :
    es'.get? i = es.get? i := by
  induction outs generalizing es with
  | nil =>
    unfold applyOutputs at h
    cases h
    rfl
  | cons out rest ih =>
    unfold applyOutputs at h
    split at h
    next => cases h
    next es₁ ha =>
      have hne : out.1 ≠ i := fun he => hnm (by simp [he.symm])
      have hnm' : i ∉ rest.map Prod.fst := fun hm => hnm (by simp [hm])
      rcases applyOutput_some_inv ha with ⟨e, p, _, _, hset⟩
      rw [ih hnm' h, hset, List.get?_set_ne _ _ hne]

theorem applyOutputs_get?_mem {τ δ π β : Type} {build : β → δ → Option π}
    {es es' : List (CacheEntry τ δ π)} {outs : List (Nat × β)} {i : Nat} {b : β}
    {e : CacheEntry τ δ π} (hnd : (outs.map Prod.fst).Nodup) (hm : (i, b) ∈ outs)
    (he : es.get? i = some e) (h : applyOutputs build es outs = some es') :
    ∃ p, build b e.desc = some p ∧ es'.get? i = some { e with pipeline := some p } := by
  induction outs generalizing es with
  | nil => simp at hm
  | cons out rest ih =>
    obtain ⟨o₁, o₂⟩ := out
    unfold applyOutputs at h
    split at h
    next => cases h
    next es₁ ha =>
      rcases applyOutput_some_inv ha with ⟨e₀, p₀, hg₀, hb₀, hset⟩
      rw [List.map_cons] at hnd
      obtain ⟨hout, hndrest⟩ := List.nodup_cons.mp hnd
      rcases List.mem_cons.mp hm with hh | hh
      · have hi : i = o₁ := by
          have := congrArg Prod.fst hh
          simpa using this
        have hb : b = o₂ := by
          have := congrArg Prod.snd hh
          simpa using this
        subst hi
        subst hb
        simp only at hg₀ hb₀ hset
        rw [he] at hg₀
        cases hg₀
        have hlt : i < es.length := by
          rcases List.get?_eq_some.mp he with ⟨hlt, _⟩
          exact hlt
        have hes₁ : es₁.get? i = some { e with pipeline := some p₀ } := by
          rw [hset, List.get?_set_eq_of_lt _ hlt]
        have hnm : i ∉ rest.map Prod.fst := hout
        rw [applyOutputs_get?_not_mem hnm h, hes₁]
        exact ⟨p₀, hb₀, rfl⟩
      · have hif : i ∈ rest.map Prod.fst := List.mem_map.mpr ⟨(i, b), hh, rfl⟩
        have hne : o₁ ≠ i := fun hq => hout (hq ▸ hif)
        have he₁ : es₁.get? i = some e := by
          rw [hset]
          simp only
          rw [List.get?_set_ne _ _ hne, he]
        exact ih hndrest hh he₁ h

theorem passSuccess {τ δ π β : Type} {result : τ → Except String β} {build : β → δ → Option π}
    {es es' : List (CacheEntry τ δ π)} {outs : List (Nat × β)}
    (hev : evalTasks result (outstandingTasks es) = .ok outs)
    (hap : applyOutputs build es outs = some es') :
    es'.length = es.length ∧
    ∀ i e, es.get? i = some e →
      ∃ e', es'.get? i = some e' ∧ e'.lazyHandle = e.lazyHandle ∧ e'.desc = e.desc ∧
        ((∃ p, e.pipeline = some p ∧ e'.pipeline = some p) ∨
         (e.pipeline = none ∧ ∃ b p, result e.lazyHandle = .ok b ∧ build b e.desc = some p ∧
           e'.pipeline = some p)) := by
  have hfst : outs.map Prod.fst = (outstandingTasks es).map Prod.fst := evalTasks_ok_fst hev
  have hnd : (outs.map Prod.fst).Nodup := by
    rw [hfst]
    exact outstandingTasks_fst_nodup es
  refine ⟨applyOutputs_length hap, fun i e he => ?_⟩
  cases hp : e.pipeline with
  | some p =>
    have hnotmem : i ∉ outs.map Prod.fst := by
      rw [hfst]
      intro hmem
      rcases List.mem_map.mp hmem with ⟨q, hq, hqf⟩
      obtain ⟨n, t⟩ := q
      rcases of_mem_outstandingFrom hq with ⟨j, e₂, hn, hg₂, hp₂, _⟩
      have hji : j = i := by
        simp at hqf
        omega
      rw [hji, he] at hg₂
      cases hg₂
      rw [hp] at hp₂
      cases hp₂
    have hsame := applyOutputs_get?_not_mem hnotmem hap
    exact ⟨e, by rw [hsame, he], rfl, rfl, Or.inl ⟨p, rfl, hp⟩⟩
  | none =>
    have hmem : (i, e.lazyHandle) ∈ outstandingTasks es := by
      have := mem_outstandingFrom_of he hp 0
      simpa using this
    rcases evalTasks_ok_of_mem hev hmem with ⟨b, hb, hbo⟩
    rcases applyOutputs_get?_mem hnd hbo he hap with ⟨p, hbuild, hget⟩
    exact ⟨{ e with pipeline := some p }, hget, rfl, rfl, Or.inr ⟨rfl, b, p, hb, hbuild, rfl⟩⟩

theorem parallel_compile_ok_inv {env : CompileEnv} {c c' : PipelineCache}
    (h : PipelineCache.parallel_compile_shaders env c = .ok c') :
    ∃ couts routs touts ces res tes,
      evalTasks env.compileResult (outstandingTasks c.computeEntries) = .ok couts ∧
      evalTasks (rasterWorkerRun env) (outstandingTasks c.rasterEntries) = .ok routs ∧
      evalTasks (rtWorkerRun env) (outstandingTasks c.rtEntries) = .ok touts ∧
      applyOutputs (fun b d => some (env.createComputePipeline b d)) c.computeEntries couts
        = some ces ∧
      applyOutputs env.createRasterPipeline c.rasterEntries routs = some res ∧
      applyOutputs env.createRayTracingPipeline c.rtEntries touts = some tes ∧
      c' = { c with computeEntries := ces, rasterEntries := res, rtEntries := tes } := by
  unfold PipelineCache.parallel_compile_shaders at h
  split at h
  next => cases h
  next couts h1 =>
    split at h
    next => cases h
    next routs h2 =>
      split at h
      next => cases h
      next touts h3 =>
        split at h
        next => cases h
        next ces h4 =>
          split at h
          next => cases h
          next res h5 =>
            split at h
            next => cases h
            next tes h6 =>
              cases h
              exact ⟨couts, routs, touts, ces, res, tes, h1, h2, h3, h4, h5, h6, rfl⟩

theorem parallel_compile_err_of_fail {env : CompileEnv} {c : PipelineCache}
    (hfail :
      (∃ p ∈ outstandingTasks c.computeEntries, ∃ m, env.compileResult p.2 = .error m) ∨
      (∃ p ∈ outstandingTasks c.rasterEntries, ∃ m, rasterWorkerRun env p.2 = .error m) ∨
      (∃ p ∈ outstandingTasks c.rtEntries, ∃ m, rtWorkerRun env p.2 = .error m)) :
    ∃ msg, PipelineCache.parallel_compile_shaders env c = .err msg c := by
  unfold PipelineCache.parallel_compile_shaders
  rcases hfail with ⟨p, hp, m, hm⟩ | ⟨p, hp, m, hm⟩ | ⟨p, hp, m, hm⟩
  · obtain ⟨i, t⟩ := p
    rcases evalTasks_error_of_mem hp hm with ⟨msg, hmsg⟩
    rw [hmsg]
    exact ⟨msg, rfl⟩
  · obtain ⟨i, t⟩ := p
    rcases evalTasks_error_of_mem hp hm with ⟨msg, hmsg⟩
    cases h1 : evalTasks env.compileResult (outstandingTasks c.computeEntries) with
    | error m1 => exact ⟨m1, rfl⟩
    | ok couts => exact ⟨msg, by simp [hmsg]⟩
  · obtain ⟨i, t⟩ := p
    rcases evalTasks_error_of_mem hp hm with ⟨msg, hmsg⟩
    cases h1 : evalTasks env.compileResult (outstandingTasks c.computeEntries) with
    | error m1 => exact ⟨m1, rfl⟩
    | ok couts =>
      cases h2 : evalTasks (rasterWorkerRun env) (outstandingTasks c.rasterEntries) with
      | error m2 => exact ⟨m2, rfl⟩
      | ok routs => exact ⟨msg, by simp [hmsg]⟩

/-- C3: the parallel compile pass is all-or-nothing: if any outstanding
compilation unit (an entry of any kind with no materialized pipeline
object) fails, `parallel_compile_shaders` returns an error carrying the
input state unchanged — zero pipeline objects are constructed in the pass,
every outstanding entry still has no materialized object (it stays pending
for the next pass), and every entry that had a materialized object keeps
it. -/
theorem C3_parallel_compile_all_or_nothing (env : CompileEnv) (c : PipelineCache)
    (hfail :
      (∃ p ∈ outstandingTasks c.computeEntries, ∃ m, env.compileResult p.2 = .error m) ∨
      (∃ p ∈ outstandingTasks c.rasterEntries, ∃ m, rasterWorkerRun env p.2 = .error m) ∨
      (∃ p ∈ outstandingTasks c.rtEntries, ∃ m, rtWorkerRun env p.2 = .error m)) :
    ∃ msg, PipelineCache.parallel_compile_shaders env c = .err msg c := by
  exact parallel_compile_err_of_fail hfail

/-- C3 witness: one outstanding compute entry whose compile fails makes the
pass fail with the state unchanged. -/
theorem C3_parallel_compile_all_or_nothing_witness :
    (∃ p ∈ outstandingTasks sampleCacheOutstanding.computeEntries,
      ∃ m, sampleEnvFail.compileResult p.2 = .error m) ∧
    ∃ msg, PipelineCache.parallel_compile_shaders sampleEnvFail sampleCacheOutstanding =
      .err msg sampleCacheOutstanding := by
  have hp : (∃ p ∈ outstandingTasks sampleCacheOutstanding.computeEntries,
      ∃ m, sampleEnvFail.compileResult p.2 = .error m) := by
    refine ⟨(0, .hlslShader "a" "cs"), ?_, "boom", rfl⟩
    simp [sampleCacheOutstanding, outstandingTasks, outstandingFrom]
  exact ⟨hp, C3_parallel_compile_all_or_nothing sampleEnvFail sampleCacheOutstanding
    (Or.inl hp)⟩

theorem invalidateStaleEntries_get? {τ δ π : Type} (stale : τ → Bool)
    (es : List (CacheEntry τ δ π)) (i : Nat) :
    (invalidateStaleEntries stale es).get? i = (es.get? i).map fun e =>
      if e.pipeline.isSome && stale e.lazyHandle then { e with pipeline := none } else e := by
  simp [invalidateStaleEntries, List.get?_map]

theorem CacheEntry.ext_of {τ δ π : Type} {a b : CacheEntry τ δ π}
    (h1 : a.lazyHandle = b.lazyHandle) (h2 : a.desc = b.desc) (h3 : a.pipeline = b.pipeline) :
    a = b := by
  cases a
  cases b
  simp only [CacheEntry.mk.injEq]
  exact ⟨h1, h2, h3⟩

theorem invalidateThenPass {τ δ π β : Type} {stale : τ → Bool}
    {result : τ → Except String β} {build : β → δ → Option π}
    {es es' : List (CacheEntry τ δ π)} {outs : List (Nat × β)}
    (hev : evalTasks result (outstandingTasks (invalidateStaleEntries stale es)) = .ok outs)
    (hap : applyOutputs build (invalidateStaleEntries stale es) outs = some es') :
    es'.length = es.length ∧
    ∀ i e, es.get? i = some e →
      ((∀ p, e.pipeline = some p → stale e.lazyHandle = false → es'.get? i = some e) ∧
       ((e.pipeline = none ∨ stale e.lazyHandle = true) →
         ∃ b p, result e.lazyHandle = .ok b ∧ build b e.desc = some p ∧
           es'.get? i = some { e with pipeline := some p })) := by
  obtain ⟨hlen, hchar⟩ := passSuccess hev hap
  have hlen' : es'.length = es.length := by
    rw [hlen]
    simp [invalidateStaleEntries]
  refine ⟨hlen', fun i e he => ?_⟩
  have hci : (invalidateStaleEntries stale es).get? i =
      some (if e.pipeline.isSome && stale e.lazyHandle then { e with pipeline := none }
        else e) := by
    rw [invalidateStaleEntries_get?, he]
    rfl
  constructor
  · intro p hp hst
    have hfe : (if e.pipeline.isSome && stale e.lazyHandle then { e with pipeline := none }
        else e) = e := by
      simp [hp, hst]
    rw [hfe] at hci
    rcases hchar i e hci with ⟨e', hg, hl, hd, hdisj⟩
    rcases hdisj with ⟨p', hp', hep⟩ | ⟨hnone, _⟩
    · have heq : e' = e := CacheEntry.ext_of hl hd (hep.trans hp'.symm)
      rw [heq] at hg
      exact hg
    · rw [hp] at hnone
      cases hnone
  · intro hcase
    set fe := if e.pipeline.isSome && stale e.lazyHandle then { e with pipeline := none }
      else e with hfe_def
    have hfep : fe.pipeline = none := by
      rcases hcase with hnone | hst
      · simp [hfe_def, hnone]
      · cases hpe : e.pipeline with
        | none => simp [hfe_def, hpe]
        | some p => simp [hfe_def, hpe, hst]
    have hfel : fe.lazyHandle = e.lazyHandle := by
      by_cases hc : e.pipeline.isSome && stale e.lazyHandle <;> simp [hfe_def, hc]
    have hfed : fe.desc = e.desc := by
      by_cases hc : e.pipeline.isSome && stale e.lazyHandle <;> simp [hfe_def, hc]
    rcases hchar i fe hci with ⟨e', hg, hl, hd, hdisj⟩
    rcases hdisj with ⟨p', hp', _⟩ | ⟨_, b, p, hb, hbu, hep⟩
    · rw [hfep] at hp'
      cases hp'
    · rw [hfel] at hb
      rw [hfed] at hbu
      refine ⟨b, p, hb, hbu, ?_⟩
      have heq : e' = { e with pipeline := some p } :=
        CacheEntry.ext_of (by rw [hl, hfel]) (by rw [hd, hfed]) hep
      rw [heq] at hg
      exact hg

theorem prepare_frame_ok_char {env : CompileEnv} {c c' : PipelineCache}
    (h : PipelineCache.prepare_frame env c = .ok c') :
    c'.computeEntries.length = c.computeEntries.length ∧
    c'.rasterEntries.length = c.rasterEntries.length ∧
    c'.rtEntries.length = c.rtEntries.length ∧
    (∀ i e, c.computeEntries.get? i = some e →
      ((∀ p, e.pipeline = some p → env.shaderStale e.lazyHandle = false →
          c'.computeEntries.get? i = some e) ∧
       ((e.pipeline = none ∨ env.shaderStale e.lazyHandle = true) →
         ∃ b, env.compileResult e.lazyHandle = .ok b ∧
           c'.computeEntries.get? i =
             some { e with pipeline := some (env.createComputePipeline b e.desc) }))) ∧
    (∀ i e, c.rasterEntries.get? i = some e →
      ((∀ p, e.pipeline = some p → env.rasterStale e.lazyHandle = false →
          c'.rasterEntries.get? i = some e) ∧
       ((e.pipeline = none ∨ env.rasterStale e.lazyHandle = true) →
         ∃ b q, rasterWorkerRun env e.lazyHandle = .ok b ∧
           env.createRasterPipeline b e.desc = some q ∧
           c'.rasterEntries.get? i = some { e with pipeline := some q }))) ∧
    (∀ i e, c.rtEntries.get? i = some e →
      ((∀ p, e.pipeline = some p → env.rtStale e.lazyHandle = false →
          c'.rtEntries.get? i = some e) ∧
       ((e.pipeline = none ∨ env.rtStale e.lazyHandle = true) →
         ∃ b q, rtWorkerRun env e.lazyHandle = .ok b ∧
           env.createRayTracingPipeline b e.desc = some q ∧
           c'.rtEntries.get? i = some { e with pipeline := some q }))) := by
  unfold PipelineCache.prepare_frame at h
  rcases parallel_compile_ok_inv h with
    ⟨couts, routs, touts, ces, res, tes, h1, h2, h3, h4, h5, h6, hc⟩
  obtain ⟨hlenC, hcharC⟩ := invalidateThenPass h1 h4
  obtain ⟨hlenR, hcharR⟩ := invalidateThenPass h2 h5
  obtain ⟨hlenT, hcharT⟩ := invalidateThenPass h3 h6
  subst hc
  refine ⟨hlenC, hlenR, hlenT, fun i e he => ?_, fun i e he => ?_, fun i e he => ?_⟩
  · obtain ⟨hkeep, hbuild⟩ := hcharC i e he
    refine ⟨hkeep, fun hcase => ?_⟩
    rcases hbuild hcase with ⟨b, p, hb, hbu, hg⟩
    rcases Option.some.inj hbu with rfl
    exact ⟨b, hb, hg⟩
  · obtain ⟨hkeep, hbuild⟩ := hcharR i e he
    refine ⟨hkeep, fun hcase => ?_⟩
    rcases hbuild hcase with ⟨b, q, hb, hbu, hg⟩
    exact ⟨b, q, hb, hbu, hg⟩
  · obtain ⟨hkeep, hbuild⟩ := hcharT i e he
    refine ⟨hkeep, fun hcase => ?_⟩
    rcases hbuild hcase with ⟨b, q, hb, hbu, hg⟩
    exact ⟨b, q, hb, hbu, hg⟩

theorem get_compute_eq {c₀ : PipelineCache} {hc : ComputePipelineHandle}
    {e : ComputeEntry} (he : c₀.computeEntries.get? hc.val = some e) :
    c₀.get_compute hc = e.pipeline := by
  unfold PipelineCache.get_compute
  rw [he]

theorem get_compute_none {c₀ : PipelineCache} {hc : ComputePipelineHandle}
    (he : c₀.computeEntries.get? hc.val = none) : c₀.get_compute hc = none := by
  unfold PipelineCache.get_compute
  rw [he]

theorem get_raster_eq {c₀ : PipelineCache} {hc : RasterPipelineHandle}
    {e : RasterEntry} (he : c₀.rasterEntries.get? hc.val = some e) :
    c₀.get_raster hc = e.pipeline := by
  unfold PipelineCache.get_raster
  rw [he]

theorem get_raster_none {c₀ : PipelineCache} {hc : RasterPipelineHandle}
    (he : c₀.rasterEntries.get? hc.val = none) : c₀.get_raster hc = none := by
  unfold PipelineCache.get_raster
  rw [he]

theorem get_ray_tracing_eq {c₀ : PipelineCache} {hc : RtPipelineHandle}
    {e : RtEntry} (he : c₀.rtEntries.get? hc.val = some e) :
    c₀.get_ray_tracing hc = e.pipeline := by
  unfold PipelineCache.get_ray_tracing
  rw [he]

theorem get_ray_tracing_none {c₀ : PipelineCache} {hc : RtPipelineHandle}
    (he : c₀.rtEntries.get? hc.val = none) : c₀.get_ray_tracing hc = none := by
  unfold PipelineCache.get_ray_tracing
  rw [he]

/-- C6: stale invalidation clears the materialized object exactly when one
exists and the compilation unit reports staleness (per entry, all three
kinds); `prepare_frame` runs invalidation strictly before the parallel
compile pass; and when the pass succeeds, a stale compiled entry has been
recompiled that frame while a non-stale compiled entry is kept untouched
(same object, never recompiled). -/
theorem C6_stale_invalidation (env : CompileEnv) (c : PipelineCache) :
    (∀ i, (PipelineCache.invalidate_stale_pipelines env c).computeEntries.get? i =
      (c.computeEntries.get? i).map fun e =>
        if e.pipeline.isSome && env.shaderStale e.lazyHandle then { e with pipeline := none }
        else e) ∧
    (∀ i, (PipelineCache.invalidate_stale_pipelines env c).rasterEntries.get? i =
      (c.rasterEntries.get? i).map fun e =>
        if e.pipeline.isSome && env.rasterStale e.lazyHandle then { e with pipeline := none }
        else e) ∧
    (∀ i, (PipelineCache.invalidate_stale_pipelines env c).rtEntries.get? i =
      (c.rtEntries.get? i).map fun e =>
        if e.pipeline.isSome && env.rtStale e.lazyHandle then { e with pipeline := none }
        else e) ∧
    (PipelineCache.prepare_frame env c =
      PipelineCache.parallel_compile_shaders env
        (PipelineCache.invalidate_stale_pipelines env c)) ∧
    (∀ c', PipelineCache.prepare_frame env c = .ok c' →
      (∀ i e p, c.computeEntries.get? i = some e → e.pipeline = some p →
        ((env.shaderStale e.lazyHandle = true →
          ∃ b, env.compileResult e.lazyHandle = .ok b ∧
            c'.computeEntries.get? i =
              some { e with pipeline := some (env.createComputePipeline b e.desc) }) ∧
         (env.shaderStale e.lazyHandle = false → c'.computeEntries.get? i = some e))) ∧
      (∀ i e p, c.rasterEntries.get? i = some e → e.pipeline = some p →
        ((env.rasterStale e.lazyHandle = true →
          ∃ b q, rasterWorkerRun env e.lazyHandle = .ok b ∧
            env.createRasterPipeline b e.desc = some q ∧
            c'.rasterEntries.get? i = some { e with pipeline := some q }) ∧
         (env.rasterStale e.lazyHandle = false → c'.rasterEntries.get? i = some e))) ∧
      (∀ i e p, c.rtEntries.get? i = some e → e.pipeline = some p →
        ((env.rtStale e.lazyHandle = true →
          ∃ b q, rtWorkerRun env e.lazyHandle = .ok b ∧
            env.createRayTracingPipeline b e.desc = some q ∧
            c'.rtEntries.get? i = some { e with pipeline := some q }) ∧
         (env.rtStale e.lazyHandle = false → c'.rtEntries.get? i = some e)))) := by
  refine ⟨fun i => invalidateStaleEntries_get? _ _ i,
    fun i => invalidateStaleEntries_get? _ _ i,
    fun i => invalidateStaleEntries_get? _ _ i, rfl, fun c' h => ?_⟩
  obtain ⟨_, _, _, hcharC, hcharR, hcharT⟩ := prepare_frame_ok_char h
  refine ⟨fun i e p he hp => ?_, fun i e p he hp => ?_, fun i e p he hp => ?_⟩
  · exact ⟨fun hst => (hcharC i e he).2 (Or.inr hst), fun hsf => (hcharC i e he).1 p hp hsf⟩
  · exact ⟨fun hst => (hcharR i e he).2 (Or.inr hst), fun hsf => (hcharR i e he).1 p hp hsf⟩
  · exact ⟨fun hst => (hcharT i e he).2 (Or.inr hst), fun hsf => (hcharT i e he).1 p hp hsf⟩

/-- C6 witness: `sampleCacheCompiled` holds a stale compiled entry and a
non-stale compiled entry; after one successful `prepare_frame` under
`sampleEnvOk` the stale entry has been rebuilt from the fresh compile
result and the non-stale entry still holds its old object. -/
theorem C6_stale_invalidation_witness :
    ∃ c', PipelineCache.prepare_frame sampleEnvOk sampleCacheCompiled = .ok c' ∧
      (∃ b, sampleEnvOk.compileResult (ShaderCompileTask.hlslShader "stale" "cs") = .ok b ∧
        c'.computeEntries.get? 0 =
          some ⟨.hlslShader "stale" "cs", ⟨.hlsl "stale", 0⟩,
            some (sampleEnvOk.createComputePipeline b ⟨.hlsl "stale", 0⟩)⟩) ∧
      c'.computeEntries.get? 1 =
        some ⟨.hlslShader "keep" "cs", ⟨.hlsl "keep", 0⟩, some ⟨6⟩⟩ := by
  obtain ⟨c', hprep⟩ : ∃ c',
      PipelineCache.prepare_frame sampleEnvOk sampleCacheCompiled = .ok c' := ⟨_, rfl⟩
  have hchar := (C6_stale_invalidation sampleEnvOk sampleCacheCompiled).2.2.2.2 c' hprep
  refine ⟨c', hprep, ?_, ?_⟩
  · exact (hchar.1 0 ⟨.hlslShader "stale" "cs", ⟨.hlsl "stale", 0⟩, some ⟨5⟩⟩ ⟨5⟩
      rfl rfl).1 (by decide)
  · exact (hchar.1 1 ⟨.hlslShader "keep" "cs", ⟨.hlsl "keep", 0⟩, some ⟨6⟩⟩ ⟨6⟩
      rfl rfl).2 (by decide)

/-- C9: the get contract.  After a successful `prepare_frame`, every
registered handle (an allocated arena index) has an entry with a
materialized pipeline object, and `get_compute`/`get_raster`/
`get_ray_tracing` return it.  For any cache state, a handle whose entry
has no materialized object, or a handle value outside the arena (never
returned by register), makes the fetch fail fatally — embedded as `none`,
the panic outcome — rather than return an object. -/
theorem C9_get_contract (env : CompileEnv) (c c' : PipelineCache)
    (h : PipelineCache.prepare_frame env c = .ok c') :
    (∀ hc : ComputePipelineHandle, hc.val < c.computeEntries.length →
      ∃ e p, c'.computeEntries.get? hc.val = some e ∧ e.pipeline = some p ∧
        c'.get_compute hc = some p) ∧
    (∀ hc : RasterPipelineHandle, hc.val < c.rasterEntries.length →
      ∃ e p, c'.rasterEntries.get? hc.val = some e ∧ e.pipeline = some p ∧
        c'.get_raster hc = some p) ∧
    (∀ hc : RtPipelineHandle, hc.val < c.rtEntries.length →
      ∃ e p, c'.rtEntries.get? hc.val = some e ∧ e.pipeline = some p ∧
        c'.get_ray_tracing hc = some p) ∧
    (∀ (c₀ : PipelineCache) (hc : ComputePipelineHandle),
      (∀ e, c₀.computeEntries.get? hc.val = some e → e.pipeline = none →
        c₀.get_compute hc = none) ∧
      (c₀.computeEntries.get? hc.val = none → c₀.get_compute hc = none)) ∧
    (∀ (c₀ : PipelineCache) (hc : RasterPipelineHandle),
      (∀ e, c₀.rasterEntries.get? hc.val = some e → e.pipeline = none →
        c₀.get_raster hc = none) ∧
      (c₀.rasterEntries.get? hc.val = none → c₀.get_raster hc = none)) ∧
    (∀ (c₀ : PipelineCache) (hc : RtPipelineHandle),
      (∀ e, c₀.rtEntries.get? hc.val = some e → e.pipeline = none →
        c₀.get_ray_tracing hc = none) ∧
      (c₀.rtEntries.get? hc.val = none → c₀.get_ray_tracing hc = none)) := by
  obtain ⟨hlenC, hlenR, hlenT, hcharC, hcharR, hcharT⟩ := prepare_frame_ok_char h
  refine ⟨fun hc hlt => ?_, fun hc hlt => ?_, fun hc hlt => ?_,
    fun c₀ hc => ⟨fun e he hp => by rw [get_compute_eq he, hp],
      fun he => get_compute_none he⟩,
    fun c₀ hc => ⟨fun e he hp => by rw [get_raster_eq he, hp],
      fun he => get_raster_none he⟩,
    fun c₀ hc => ⟨fun e he hp => by rw [get_ray_tracing_eq he, hp],
      fun he => get_ray_tracing_none he⟩⟩
  · cases he : c.computeEntries.get? hc.val with
    | none =>
      rw [List.get?_eq_none] at he
      omega
    | some e =>
      obtain ⟨hkeep, hbuild⟩ := hcharC hc.val e he
      cases hp : e.pipeline with
      | none =>
        rcases hbuild (Or.inl hp) with ⟨b, _, hg⟩
        exact ⟨_, _, hg, rfl, by rw [get_compute_eq hg]⟩
      | some p =>
        cases hst : env.shaderStale e.lazyHandle with
        | false =>
          have hg := hkeep p hp hst
          exact ⟨e, p, hg, hp, by rw [get_compute_eq hg, hp]⟩
        | true =>
          rcases hbuild (Or.inr hst) with ⟨b, _, hg⟩
          exact ⟨_, _, hg, rfl, by rw [get_compute_eq hg]⟩
  · cases he : c.rasterEntries.get? hc.val with
    | none =>
      rw [List.get?_eq_none] at he
      omega
    | some e =>
      obtain ⟨hkeep, hbuild⟩ := hcharR hc.val e he
      cases hp : e.pipeline with
      | none =>
        rcases hbuild (Or.inl hp) with ⟨b, q, _, _, hg⟩
        exact ⟨_, _, hg, rfl, by rw [get_raster_eq hg]⟩
      | some p =>
        cases hst : env.rasterStale e.lazyHandle with
        | false =>
          have hg := hkeep p hp hst
          exact ⟨e, p, hg, hp, by rw [get_raster_eq hg, hp]⟩
        | true =>
          rcases hbuild (Or.inr hst) with ⟨b, q, _, _, hg⟩
          exact ⟨_, _, hg, rfl, by rw [get_raster_eq hg]⟩
  · cases he : c.rtEntries.get? hc.val with
    | none =>
      rw [List.get?_eq_none] at he
      omega
    | some e =>
      obtain ⟨hkeep, hbuild⟩ := hcharT hc.val e he
      cases hp : e.pipeline with
      | none =>
        rcases hbuild (Or.inl hp) with ⟨b, q, _, _, hg⟩
        exact ⟨_, _, hg, rfl, by rw [get_ray_tracing_eq hg]⟩
      | some p =>
        cases hst : env.rtStale e.lazyHandle with
        | false =>
          have hg := hkeep p hp hst
          exact ⟨e, p, hg, hp, by rw [get_ray_tracing_eq hg, hp]⟩
        | true =>
          rcases hbuild (Or.inr hst) with ⟨b, q, _, _, hg⟩
          exact ⟨_, _, hg, rfl, by rw [get_ray_tracing_eq hg]⟩

/-- C9 witness: after a successful `prepare_frame` on
`sampleCacheOutstanding`, the registered compute handle 0 fetches a
materialized pipeline object. -/
theorem C9_get_contract_witness :
    ∃ c', PipelineCache.prepare_frame sampleEnvOk sampleCacheOutstanding = .ok c' ∧
      (0 : Nat) < sampleCacheOutstanding.computeEntries.length ∧
      ∃ e p, c'.computeEntries.get? 0 = some e ∧ e.pipeline = some p ∧
        c'.get_compute ⟨0⟩ = some p := by
  obtain ⟨c', hprep⟩ : ∃ c',
      PipelineCache.prepare_frame sampleEnvOk sampleCacheOutstanding = .ok c' := ⟨_, rfl⟩
  have hlt : (0 : Nat) < sampleCacheOutstanding.computeEntries.length := by decide
  exact ⟨c', hprep, hlt,
    (C9_get_contract sampleEnvOk sampleCacheOutstanding c' hprep).1 ⟨0⟩ hlt⟩

/-! Lemmas about the temporal resource ledger. -/

theorem findState_mem {Res : Type} {m : ResMap Res} {k : TemporalResourceKey}
    {v : TemporalResourceState Res} (h : findState m k = some v) : (k, v) ∈ m := by
  induction m with
  | nil => simp [findState] at h
  | cons p rest ih =>
    obtain ⟨k₁, v₁⟩ := p
    by_cases hk : k₁ = k
    · subst hk
      simp [findState] at h
      subst h
      exact List.mem_cons_self _ _
    · simp [findState, hk] at h
      exact List.mem_cons_of_mem _ (ih h)

theorem findState_append_some {Res : Type} {m : ResMap Res} {k : TemporalResourceKey}
    {v : TemporalResourceState Res} (l : ResMap Res) (h : findState m k = some v) :
    findState (m ++ l) k = some v := by
  induction m with
  | nil => simp [findState] at h
  | cons p rest ih =>
    obtain ⟨k₁, v₁⟩ := p
    by_cases hk : k₁ = k
    · subst hk
      simp [findState] at h ⊢
      exact h
    · simp [findState, hk] at h ⊢
      exact ih h

theorem findState_append_none {Res : Type} {m : ResMap Res} {k : TemporalResourceKey}
    (l : ResMap Res) (h : findState m k = none) : findState (m ++ l) k = findState l k := by
  induction m with
  | nil => simp
  | cons p rest ih =>
    obtain ⟨k₁, v₁⟩ := p
    by_cases hk : k₁ = k
    · subst hk
      simp [findState] at h
    · simp [findState, hk] at h ⊢
      exact ih h

theorem findState_append_singleton_ne {Res : Type} {m : ResMap Res}
    {k k' : TemporalResourceKey} (v : TemporalResourceState Res) (hk : k ≠ k') :
    findState (m ++ [(k, v)]) k' = findState m k' := by
  cases h : findState m k' with
  | some w => exact findState_append_some _ h
  | none =>
    rw [findState_append_none _ h]
    simp [findState, hk]

theorem findState_setState_self {Res : Type} {m : ResMap Res} {k : TemporalResourceKey}
    {w : TemporalResourceState Res} (v : TemporalResourceState Res)
    (h : findState m k = some w) : findState (setState m k v) k = some v := by
  induction m with
  | nil => simp [findState] at h
  | cons p rest ih =>
    obtain ⟨k₁, v₁⟩ := p
    by_cases hk : k₁ = k
    · subst hk
      simp [findState, setState]
    · simp [findState, setState, hk] at h ⊢
      exact ih h

theorem findState_setState_ne {Res : Type} (m : ResMap Res) {k k' : TemporalResourceKey}
    (v : TemporalResourceState Res) (hk : k ≠ k') :
    findState (setState m k v) k' = findState m k' := by
  induction m with
  | nil => simp [setState]
  | cons p rest ih =>
    obtain ⟨k₁, v₁⟩ := p
    by_cases h₁ : k₁ = k
    · subst h₁
      simp [setState, findState, hk]
    · simp only [setState, if_neg h₁]
      by_cases h₂ : k₁ = k'
      · subst h₂
        simp [findState]
      · simp [findState, h₂]
        exact ih

theorem exportStates_some_of_noExported {Res : Type} {m : ResMap Res}
    (hno : noExported m) (exps : List (Nat × AccessType)) :
    ∃ out, exportStates exps m = some out := by
  induction m generalizing exps with
  | nil => exact ⟨(exps, []), rfl⟩
  | cons p rest ih =>
    obtain ⟨k₀, st₀⟩ := p
    have hno' : noExported rest := fun q hq => hno q (List.mem_cons_of_mem _ hq)
    cases st₀ with
    | Inert r a =>
      rcases ih hno' exps with ⟨⟨e1, rest'⟩, hrec⟩
      exact ⟨(e1, (k₀, .Inert r a) :: rest'), by simp [exportStates, hrec]⟩
    | Imported r h =>
      rcases ih hno' (exps ++ [(h, AccessType.Nothing)]) with ⟨⟨e1, rest'⟩, hrec⟩
      exact ⟨(e1, (k₀, .Exported r exps.length) :: rest'), by simp [exportStates, hrec]⟩
    | Exported r h =>
      exact absurd rfl (hno (k₀, .Exported r h) (List.mem_cons_self _ _) r h)

theorem exportStates_find {Res : Type} {m m' : ResMap Res}
    {exps exps' : List (Nat × AccessType)} (h : exportStates exps m = some (exps', m')) :
    ∀ k, (findState m k = none → findState m' k = none) ∧
      (∀ r a, findState m k = some (.Inert r a) → findState m' k = some (.Inert r a)) ∧
      (∀ r hh, findState m k = some (.Imported r hh) →
        ∃ eh, findState m' k = some (.Exported r eh)) := by
  induction m generalizing exps exps' m' with
  | nil =>
    simp only [exportStates] at h
    cases h
    intro k
    exact ⟨fun _ => rfl, fun r a hx => by simp [findState] at hx,
      fun r hh hx => by simp [findState] at hx⟩
  | cons p rest ih =>
    obtain ⟨k₀, st₀⟩ := p
    cases st₀ with
    | Inert r₀ a₀ =>
      simp only [exportStates] at h
      split at h
      next => cases h
      next e1 rest' hrec =>
        cases h
        intro k
        by_cases hk : k₀ = k
        · subst hk
          refine ⟨fun hx => by simp [findState] at hx, fun r a hx => ?_, fun r hh hx => ?_⟩
          · simp [findState] at hx ⊢
            exact hx
          · simp [findState] at hx
        · simp only [findState, if_neg hk]
          exact ih hrec k
    | Imported r₀ h₀ =>
      simp only [exportStates] at h
      split at h
      next => cases h
      next e1 rest' hrec =>
        cases h
        intro k
        by_cases hk : k₀ = k
        · subst hk
          refine ⟨fun hx => by simp [findState] at hx, fun r a hx => ?_, fun r hh hx => ?_⟩
          · simp [findState] at hx
          · have hx' : r₀ = r ∧ h₀ = hh := by simpa [findState] using hx
            obtain ⟨hr, _⟩ := hx'
            subst hr
            exact ⟨exps.length, by simp [findState]⟩
        · simp only [findState, if_neg hk]
          exact ih hrec k
    | Exported r₀ h₀ =>
      simp only [exportStates] at h
      cases h

theorem exportStates_noImported {Res : Type} {m m' : ResMap Res}
    {exps exps' : List (Nat × AccessType)} (h : exportStates exps m = some (exps', m')) :
    noImported m' := by
  induction m generalizing exps exps' m' with
  | nil =>
    simp only [exportStates] at h
    cases h
    intro p hp
    simp at hp
  | cons p rest ih =>
    obtain ⟨k₀, st₀⟩ := p
    cases st₀ with
    | Inert r₀ a₀ =>
      simp only [exportStates] at h
      split at h
      next => cases h
      next e1 rest' hrec =>
        cases h
        intro q hq r hh
        rcases List.mem_cons.mp hq with hq | hq
        · subst hq
          simp
        · exact ih hrec q hq r hh
    | Imported r₀ h₀ =>
      simp only [exportStates] at h
      split at h
      next => cases h
      next e1 rest' hrec =>
        cases h
        intro q hq r hh
        rcases List.mem_cons.mp hq with hq | hq
        · subst hq
          simp
        · exact ih hrec q hq r hh
    | Exported r₀ h₀ =>
      simp only [exportStates] at h
      cases h

theorem exportStates_appendix {Res : Type} {m m' : ResMap Res}
    {exps exps' : List (Nat × AccessType)} (h : exportStates exps m = some (exps', m')) :
    ∃ l, exps' = exps ++ l ∧ ∀ p ∈ l, p.2 = AccessType.Nothing := by
  induction m generalizing exps exps' m' with
  | nil =>
    simp only [exportStates] at h
    cases h
    exact ⟨[], by simp, by simp⟩
  | cons p rest ih =>
    obtain ⟨k₀, st₀⟩ := p
    cases st₀ with
    | Inert r₀ a₀ =>
      simp only [exportStates] at h
      split at h
      next => cases h
      next e1 rest' hrec =>
        cases h
        exact ih hrec
    | Imported r₀ h₀ =>
      simp only [exportStates] at h
      split at h
      next => cases h
      next e1 rest' hrec =>
        cases h
        rcases ih hrec with ⟨l, hl, hall⟩
        refine ⟨(h₀, AccessType.Nothing) :: l, by simpa using hl, ?_⟩
        intro q hq
        rcases List.mem_cons.mp hq with hq | hq
        · subst hq
          rfl
        · exact hall q hq
    | Exported r₀ h₀ =>
      simp only [exportStates] at h
      cases h

theorem retireStates_some_of_noImported {Res : Type} {m : ResMap Res}
    (f : Nat → Res × AccessType) (hno : noImported m) :
    ∃ m', retireStates f m = some m' := by
  induction m with
  | nil => exact ⟨[], rfl⟩
  | cons p rest ih =>
    obtain ⟨k₀, st₀⟩ := p
    have hno' : noImported rest := fun q hq => hno q (List.mem_cons_of_mem _ hq)
    cases st₀ with
    | Inert r a =>
      rcases ih hno' with ⟨rest', hrec⟩
      exact ⟨(k₀, .Inert r a) :: rest', by simp [retireStates, hrec]⟩
    | Imported r h =>
      exact absurd rfl (hno (k₀, .Imported r h) (List.mem_cons_self _ _) r h)
    | Exported r h =>
      rcases ih hno' with ⟨rest', hrec⟩
      exact ⟨(k₀, .Inert r (f h).2) :: rest', by simp [retireStates, hrec]⟩

theorem retireStates_find {Res : Type} {m m' : ResMap Res} {f : Nat → Res × AccessType}
    (h : retireStates f m = some m') :
    ∀ k, (∀ r a, findState m k = some (.Inert r a) → findState m' k = some (.Inert r a)) ∧
      (∀ r hh, findState m k = some (.Exported r hh) →
        findState m' k = some (.Inert r (f hh).2)) := by
  induction m generalizing m' with
  | nil =>
    simp only [retireStates] at h
    cases h
    intro k
    exact ⟨fun r a hx => by simp [findState] at hx, fun r hh hx => by simp [findState] at hx⟩
  | cons p rest ih =>
    obtain ⟨k₀, st₀⟩ := p
    cases st₀ with
    | Inert r₀ a₀ =>
      simp only [retireStates] at h
      split at h
      next => cases h
      next rest' hrec =>
        cases h
        intro k
        by_cases hk : k₀ = k
        · subst hk
          refine ⟨fun r a hx => ?_, fun r hh hx => ?_⟩
          · simp [findState] at hx ⊢
            exact hx
          · simp [findState] at hx
        · simp only [findState, if_neg hk]
          exact ih hrec k
    | Imported r₀ h₀ =>
      simp only [retireStates] at h
      cases h
    | Exported r₀ h₀ =>
      simp only [retireStates] at h
      split at h
      next => cases h
      next rest' hrec =>
        cases h
        intro k
        by_cases hk : k₀ = k
        · subst hk
          refine ⟨fun r a hx => ?_, fun r hh hx => ?_⟩
          · simp [findState] at hx
          · simp [findState] at hx ⊢
            rcases hx with ⟨hr, hh'⟩
            subst hr
            subst hh'
            exact ⟨rfl, rfl⟩
        · simp only [findState, if_neg hk]
          exact ih hrec k

theorem export_temporal_inv {g : TemporalRenderGraph} {rg' : RenderGraph}
    {es : ExportedTemporalRenderGraphState} (h : g.export_temporal = some (rg', es)) :
    ∃ ie be, exportStates g.rg.imageExports g.temporalState.images = some (ie, es.state.images) ∧
      exportStates g.rg.bufferExports g.temporalState.buffers = some (be, es.state.buffers) ∧
      rg' = { g.rg with imageExports := ie, bufferExports := be } := by
  unfold TemporalRenderGraph.export_temporal at h
  split at h
  next => cases h
  next ie images' h1 =>
    split at h
    next => cases h
    next be buffers' h2 =>
      cases h
      exact ⟨ie, be, h1, h2, rfl⟩

theorem export_temporal_some {g : TemporalRenderGraph}
    (hi : noExported g.temporalState.images) (hb : noExported g.temporalState.buffers) :
    ∃ out, g.export_temporal = some out := by
  unfold TemporalRenderGraph.export_temporal
  rcases exportStates_some_of_noExported hi g.rg.imageExports with ⟨⟨ie, images'⟩, h1⟩
  rcases exportStates_some_of_noExported hb g.rg.bufferExports with ⟨⟨be, buffers'⟩, h2⟩
  rw [h1, h2]
  exact ⟨_, rfl⟩

theorem retire_temporal_inv {es : ExportedTemporalRenderGraphState}
    {ret : RetiredRenderGraph} {final : TemporalRenderGraphState}
    (h : es.retire_temporal ret = some final) :
    retireStates ret.imageExportedResource es.state.images = some final.images ∧
      retireStates ret.bufferExportedResource es.state.buffers = some final.buffers := by
  unfold ExportedTemporalRenderGraphState.retire_temporal at h
  split at h
  next => cases h
  next images' h1 =>
    split at h
    next => cases h
    next buffers' h2 =>
      cases h
      exact ⟨h1, h2⟩

theorem retire_temporal_some {es : ExportedTemporalRenderGraphState} (ret : RetiredRenderGraph)
    (hi : noImported es.state.images) (hb : noImported es.state.buffers) :
    ∃ final, es.retire_temporal ret = some final := by
  unfold ExportedTemporalRenderGraphState.retire_temporal
  rcases retireStates_some_of_noImported ret.imageExportedResource hi with ⟨images', h1⟩
  rcases retireStates_some_of_noImported ret.bufferExportedResource hb with ⟨buffers', h2⟩
  rw [h1, h2]
  exact ⟨_, rfl⟩


theorem reuseFromResources_keep {Res : Type} {selfMap : ResMap Res}
    {k : TemporalResourceKey} (other : ResMap Res) (hc : containsKey selfMap k = true) :
    findState (reuseFromResources selfMap other) k = findState selfMap k := by
  induction other generalizing selfMap with
  | nil => rfl
  | cons p rest ih =>
    obtain ⟨k₀, st₀⟩ := p
    unfold reuseFromResources
    by_cases hck : containsKey selfMap k₀
    · rw [if_pos hck]
      exact ih hc
    · rw [if_neg hck]
      have hsome : ∃ v, findState selfMap k = some v := by
        unfold containsKey at hc
        cases hf : findState selfMap k with
        | none => rw [hf] at hc; simp at hc
        | some v => exact ⟨v, rfl⟩
      rcases hsome with ⟨v, hf⟩
      have hc' : containsKey (selfMap ++ [(k₀, downgradeState st₀)]) k = true := by
        unfold containsKey
        rw [findState_append_some _ hf]
        rfl
      rw [ih hc']
      rw [findState_append_some _ hf, hf]

theorem reuseFromResources_missing {Res : Type} {selfMap other : ResMap Res}
    {k : TemporalResourceKey} {st : TemporalResourceState Res}
    (hc : containsKey selfMap k = false) (hf : findState other k = some st) :
    findState (reuseFromResources selfMap other) k = some (downgradeState st) := by
  induction other generalizing selfMap with
  | nil => simp [findState] at hf
  | cons p rest ih =>
    obtain ⟨k₀, st₀⟩ := p
    unfold reuseFromResources
    by_cases hk : k₀ = k
    · subst hk
      have hst : st₀ = st := by simpa [findState] using hf
      subst hst
      rw [if_neg (by rw [hc]; simp)]
      have hfnone : findState selfMap k₀ = none := by
        unfold containsKey at hc
        cases hfs : findState selfMap k₀ with
        | some v => rw [hfs] at hc; simp at hc
        | none => rfl
      have hcnew : containsKey (selfMap ++ [(k₀, downgradeState st₀)]) k₀ = true := by
        unfold containsKey
        rw [findState_append_none _ hfnone]
        simp [findState]
      rw [reuseFromResources_keep rest hcnew]
      rw [findState_append_none _ hfnone]
      simp [findState]
    · have hf' : findState rest k = some st := by
        simpa [findState, hk] using hf
      by_cases hck : containsKey selfMap k₀
      · rw [if_pos hck]
        exact ih hc hf'
      · rw [if_neg hck]
        have hc' : containsKey (selfMap ++ [(k₀, downgradeState st₀)]) k = false := by
          unfold containsKey at hc ⊢
          cases hfs : findState selfMap k with
          | some v => rw [hfs] at hc; simp at hc
          | none =>
            rw [findState_append_none _ hfs]
            simp [findState, hk]
        exact ih hc' hf'

theorem gOC_image_inert {g : TemporalRenderGraph} {k : TemporalResourceKey}
    {r : Image} {a : AccessType} (desc : ImageDesc)
    (hf : findState g.temporalState.images k = some (.Inert r a)) :
    g.get_or_create_temporal_image k desc = .ok g.rg.imageImports.length
      { g with
        rg := { g.rg with imageImports := g.rg.imageImports ++ [(r, a)] }
        temporalState :=
          { g.temporalState with
            images := setState g.temporalState.images k
              (.Imported r g.rg.imageImports.length) } } := by
  unfold TemporalRenderGraph.get_or_create_temporal_image
  rw [hf]
  rfl

theorem gOC_image_imported {g : TemporalRenderGraph} {k : TemporalResourceKey}
    {r : Image} {h : Nat} (desc : ImageDesc)
    (hf : findState g.temporalState.images k = some (.Imported r h)) :
    g.get_or_create_temporal_image k desc = .err (.alreadyTaken k) g := by
  unfold TemporalRenderGraph.get_or_create_temporal_image
  rw [hf]

theorem gOC_image_exported {g : TemporalRenderGraph} {k : TemporalResourceKey}
    {r : Image} {h : Nat} (desc : ImageDesc)
    (hf : findState g.temporalState.images k = some (.Exported r h)) :
    g.get_or_create_temporal_image k desc = .panic := by
  unfold TemporalRenderGraph.get_or_create_temporal_image
  rw [hf]

theorem gOC_image_vacant_ok {g : TemporalRenderGraph} {k : TemporalResourceKey}
    {desc : ImageDesc} {r : Image} (hf : findState g.temporalState.images k = none)
    (hcr : g.device.createImageFn desc = .ok r) :
    g.get_or_create_temporal_image k desc = .ok g.rg.imageImports.length
      { g with
        rg := { g.rg with imageImports := g.rg.imageImports ++ [(r, AccessType.Nothing)] }
        device := { g.device with createdImages := g.device.createdImages ++ [r] }
        temporalState :=
          { g.temporalState with
            images := g.temporalState.images ++
              [(k, .Imported r g.rg.imageImports.length)] } } := by
  unfold TemporalRenderGraph.get_or_create_temporal_image
  rw [hf, hcr]
  rfl

theorem gOC_image_vacant_err {g : TemporalRenderGraph} {k : TemporalResourceKey}
    {desc : ImageDesc} {e : String} (hf : findState g.temporalState.images k = none)
    (hcr : g.device.createImageFn desc = .error e) :
    g.get_or_create_temporal_image k desc =
      .err (.creationFailed ("Creating image: " ++ e)) g := by
  unfold TemporalRenderGraph.get_or_create_temporal_image
  rw [hf, hcr]

theorem gOC_buffer_inert {g : TemporalRenderGraph} {k : TemporalResourceKey}
    {r : Buffer} {a : AccessType} (desc : BufferDesc)
    (hf : findState g.temporalState.buffers k = some (.Inert r a)) :
    g.get_or_create_temporal_buffer k desc = .ok g.rg.bufferImports.length
      { g with
        rg := { g.rg with bufferImports := g.rg.bufferImports ++ [(r, a)] }
        temporalState :=
          { g.temporalState with
            buffers := setState g.temporalState.buffers k
              (.Imported r g.rg.bufferImports.length) } } := by
  unfold TemporalRenderGraph.get_or_create_temporal_buffer
  rw [hf]
  rfl

theorem gOC_buffer_imported {g : TemporalRenderGraph} {k : TemporalResourceKey}
    {r : Buffer} {h : Nat} (desc : BufferDesc)
    (hf : findState g.temporalState.buffers k = some (.Imported r h)) :
    g.get_or_create_temporal_buffer k desc = .err (.alreadyTaken k) g := by
  unfold TemporalRenderGraph.get_or_create_temporal_buffer
  rw [hf]

theorem gOC_buffer_exported {g : TemporalRenderGraph} {k : TemporalResourceKey}
    {r : Buffer} {h : Nat} (desc : BufferDesc)
    (hf : findState g.temporalState.buffers k = some (.Exported r h)) :
    g.get_or_create_temporal_buffer k desc = .panic := by
  unfold TemporalRenderGraph.get_or_create_temporal_buffer
  rw [hf]

theorem gOC_buffer_vacant_ok {g : TemporalRenderGraph} {k : TemporalResourceKey}
    {desc : BufferDesc} {r : Buffer} (hf : findState g.temporalState.buffers k = none)
    (hcr : g.device.createBufferFn desc k.key = .ok r) :
    g.get_or_create_temporal_buffer k desc = .ok g.rg.bufferImports.length
      { g with
        rg := { g.rg with bufferImports := g.rg.bufferImports ++ [(r, AccessType.Nothing)] }
        device := { g.device with createdBuffers := g.device.createdBuffers ++ [r] }
        temporalState :=
          { g.temporalState with
            buffers := g.temporalState.buffers ++
              [(k, .Imported r g.rg.bufferImports.length)] } } := by
  unfold TemporalRenderGraph.get_or_create_temporal_buffer
  rw [hf, hcr]
  rfl

theorem gOC_buffer_vacant_err {g : TemporalRenderGraph} {k : TemporalResourceKey}
    {desc : BufferDesc} {e : String} (hf : findState g.temporalState.buffers k = none)
    (hcr : g.device.createBufferFn desc k.key = .error e) :
    g.get_or_create_temporal_buffer k desc = .err (.creationFailed e) g := by
  unfold TemporalRenderGraph.get_or_create_temporal_buffer
  rw [hf, hcr]

/-- C5: double-claim is a recoverable, atomic error: for a key whose state
is `Imported`, `get_or_create_temporal` (image or buffer) returns the
recoverable error value that names the offending key, and the state it
leaves behind is the input state itself — no ledger entry changes, the
graph's import log is untouched, and the device's creation log is
untouched (no backing resource is created). -/
theorem C5_double_claim (g : TemporalRenderGraph) (k : TemporalResourceKey) :
    (∀ (desc : ImageDesc) r h,
      findState g.temporalState.images k = some (.Imported r h) →
      g.get_or_create_temporal_image k desc = .err (.alreadyTaken k) g) ∧
    (∀ (desc : BufferDesc) r h,
      findState g.temporalState.buffers k = some (.Imported r h) →
      g.get_or_create_temporal_buffer k desc = .err (.alreadyTaken k) g) := by
  exact ⟨fun desc r h hf => gOC_image_imported desc hf,
    fun desc r h hf => gOC_buffer_imported desc hf⟩

/-- C5 witness: claiming the already-imported key "history" errors with
that key and hands back the unchanged state. -/
theorem C5_double_claim_witness :
    findState sampleTRGImported.temporalState.images ⟨"history"⟩ =
      some (.Imported ⟨3⟩ 0) ∧
    sampleTRGImported.get_or_create_temporal_image ⟨"history"⟩ ⟨0⟩ =
      .err (.alreadyTaken ⟨"history"⟩) sampleTRGImported := by
  constructor
  · rfl
  · exact (C5_double_claim sampleTRGImported ⟨"history"⟩).1 ⟨0⟩ ⟨3⟩ 0 rfl

/-- C4: export/retire round-trip: starting from a ledger with no
`Exported` key, `export_temporal` succeeds, `retire_temporal` succeeds on
its output, every `Imported` key passes through `Exported` and returns to
`Inert` with exactly the access type the retired graph reports for its
export handle (the ledger's own resource is kept), and every key that was
`Inert` all along is unchanged by both calls — for images and buffers
alike. -/
theorem C4_export_retire_roundtrip (g : TemporalRenderGraph) (ret : RetiredRenderGraph)
    (hi : noExported g.temporalState.images) (hb : noExported g.temporalState.buffers) :
    ∃ rg' es final, g.export_temporal = some (rg', es) ∧
      es.retire_temporal ret = some final ∧
      (∀ k r a, findState g.temporalState.images k = some (.Inert r a) →
        findState es.state.images k = some (.Inert r a) ∧
        findState final.images k = some (.Inert r a)) ∧
      (∀ k r h, findState g.temporalState.images k = some (.Imported r h) →
        ∃ eh, findState es.state.images k = some (.Exported r eh) ∧
          findState final.images k = some (.Inert r (ret.imageExportedResource eh).2)) ∧
      (∀ k r a, findState g.temporalState.buffers k = some (.Inert r a) →
        findState es.state.buffers k = some (.Inert r a) ∧
        findState final.buffers k = some (.Inert r a)) ∧
      (∀ k r h, findState g.temporalState.buffers k = some (.Imported r h) →
        ∃ eh, findState es.state.buffers k = some (.Exported r eh) ∧
          findState final.buffers k = some (.Inert r (ret.bufferExportedResource eh).2)) := by
  rcases export_temporal_some hi hb with ⟨⟨rg', es⟩, hexp⟩
  rcases export_temporal_inv hexp with ⟨ie, be, h1i, h1b, _⟩
  have hni : noImported es.state.images := exportStates_noImported h1i
  have hnb : noImported es.state.buffers := exportStates_noImported h1b
  rcases retire_temporal_some ret hni hnb with ⟨final, hret⟩
  rcases retire_temporal_inv hret with ⟨h2i, h2b⟩
  refine ⟨rg', es, final, hexp, hret, ?_, ?_, ?_, ?_⟩
  · intro k r a hf
    have h1 := (exportStates_find h1i k).2.1 r a hf
    exact ⟨h1, (retireStates_find h2i k).1 r a h1⟩
  · intro k r h hf
    rcases (exportStates_find h1i k).2.2 r h hf with ⟨eh, h1⟩
    exact ⟨eh, h1, (retireStates_find h2i k).2 r eh h1⟩
  · intro k r a hf
    have h1 := (exportStates_find h1b k).2.1 r a hf
    exact ⟨h1, (retireStates_find h2b k).1 r a h1⟩
  · intro k r h hf
    rcases (exportStates_find h1b k).2.2 r h hf with ⟨eh, h1⟩
    exact ⟨eh, h1, (retireStates_find h2b k).2 r eh h1⟩

/-- C4 witness: on `sampleTRGRound` (one inert image, one imported image,
one imported buffer), the round-trip leaves the inert key untouched and
returns the imported keys to `Inert` with the retired graph's reported
access types. -/
theorem C4_export_retire_roundtrip_witness :
    noExported sampleTRGRound.temporalState.images ∧
    noExported sampleTRGRound.temporalState.buffers ∧
    ∃ rg' es final, sampleTRGRound.export_temporal = some (rg', es) ∧
      es.retire_temporal sampleRetired = some final ∧
      (findState es.state.images ⟨"hist"⟩ = some (.Inert ⟨3⟩ (AccessType.Other 2)) ∧
        findState final.images ⟨"hist"⟩ = some (.Inert ⟨3⟩ (AccessType.Other 2))) ∧
      ∃ eh, findState es.state.images ⟨"cur"⟩ = some (.Exported ⟨4⟩ eh) ∧
        findState final.images ⟨"cur"⟩ =
          some (.Inert ⟨4⟩ (sampleRetired.imageExportedResource eh).2) := by
  have hi : noExported sampleTRGRound.temporalState.images := by
    intro p hp r h
    simp [sampleTRGRound] at hp
    rcases hp with hp | hp <;> subst hp <;> simp
  have hb : noExported sampleTRGRound.temporalState.buffers := by
    intro p hp r h
    simp [sampleTRGRound] at hp
    subst hp
    simp
  rcases C4_export_retire_roundtrip sampleTRGRound sampleRetired hi hb with
    ⟨rg', es, final, hexp, hret, hinert, himp, _, _⟩
  exact ⟨hi, hb, rg', es, final, hexp, hret,
    hinert ⟨"hist"⟩ ⟨3⟩ (AccessType.Other 2) rfl, himp ⟨"cur"⟩ ⟨4⟩ 0 rfl⟩

/-- C7: `reuse_from` merges only missing keys and downgrades non-`Inert`
entries: every key already present in the target ledger keeps its prior
entry unchanged; a key present only in the source is inserted as-is if it
was `Inert` (same resource, same access type) and as `Inert` with the
conservative `AccessType::Nothing` and the same resource if it was
`Imported` or `Exported` — for images and buffers alike. -/
theorem C7_reuse_from (s other : TemporalRenderGraphState) :
    (∀ k,
      (containsKey s.images k = true →
        findState (s.reuse_from other).images k = findState s.images k) ∧
      (containsKey s.images k = false →
        (∀ r a, findState other.images k = some (.Inert r a) →
          findState (s.reuse_from other).images k = some (.Inert r a)) ∧
        (∀ r h, findState other.images k = some (.Imported r h) →
          findState (s.reuse_from other).images k =
            some (.Inert r AccessType.Nothing)) ∧
        (∀ r h, findState other.images k = some (.Exported r h) →
          findState (s.reuse_from other).images k =
            some (.Inert r AccessType.Nothing)))) ∧
    (∀ k,
      (containsKey s.buffers k = true →
        findState (s.reuse_from other).buffers k = findState s.buffers k) ∧
      (containsKey s.buffers k = false →
        (∀ r a, findState other.buffers k = some (.Inert r a) →
          findState (s.reuse_from other).buffers k = some (.Inert r a)) ∧
        (∀ r h, findState other.buffers k = some (.Imported r h) →
          findState (s.reuse_from other).buffers k =
            some (.Inert r AccessType.Nothing)) ∧
        (∀ r h, findState other.buffers k = some (.Exported r h) →
          findState (s.reuse_from other).buffers k =
            some (.Inert r AccessType.Nothing)))) := by
  constructor
  · intro k
    refine ⟨fun hc => reuseFromResources_keep other.images hc, fun hc => ?_⟩
    exact ⟨fun r a hf => reuseFromResources_missing hc hf,
      fun r h hf => reuseFromResources_missing hc hf,
      fun r h hf => reuseFromResources_missing hc hf⟩
  · intro k
    refine ⟨fun hc => reuseFromResources_keep other.buffers hc, fun hc => ?_⟩
    exact ⟨fun r a hf => reuseFromResources_missing hc hf,
      fun r h hf => reuseFromResources_missing hc hf,
      fun r h hf => reuseFromResources_missing hc hf⟩

/-- C7 witness: merging `sampleLedgerOther` into `sampleLedgerSelf` keeps
the present key "a" with its real access type, inserts the missing
claimed image "b" downgraded to `Inert`/`Nothing`, and inserts the
missing exported buffer "c" downgraded to `Inert`/`Nothing`. -/
theorem C7_reuse_from_witness :
    containsKey sampleLedgerSelf.images ⟨"a"⟩ = true ∧
    findState (sampleLedgerSelf.reuse_from sampleLedgerOther).images ⟨"a"⟩ =
      findState sampleLedgerSelf.images ⟨"a"⟩ ∧
    containsKey sampleLedgerSelf.images ⟨"b"⟩ = false ∧
    findState sampleLedgerOther.images ⟨"b"⟩ = some (.Imported ⟨2⟩ 0) ∧
    findState (sampleLedgerSelf.reuse_from sampleLedgerOther).images ⟨"b"⟩ =
      some (.Inert ⟨2⟩ AccessType.Nothing) ∧
    containsKey sampleLedgerSelf.buffers ⟨"c"⟩ = false ∧
    findState sampleLedgerOther.buffers ⟨"c"⟩ = some (.Exported ⟨6⟩ 2) ∧
    findState (sampleLedgerSelf.reuse_from sampleLedgerOther).buffers ⟨"c"⟩ =
      some (.Inert ⟨6⟩ AccessType.Nothing) := by
  have h := C7_reuse_from sampleLedgerSelf sampleLedgerOther
  refine ⟨by decide, (h.1 ⟨"a"⟩).1 (by decide), by decide, by decide, ?_, by decide,
    by decide, ?_⟩
  · exact ((h.1 ⟨"b"⟩).2 (by decide)).2.1 ⟨2⟩ 0 (by decide)
  · exact ((h.2 ⟨"c"⟩).2 (by decide)).2.2 ⟨6⟩ 2 (by decide)

/-- C10: the export step always records the conservative access type
`Nothing` as the export access — every entry `export_temporal` appends to
the graph's image/buffer export logs carries `AccessType::Nothing`, never
a resource-specific final access intent; the real final access type only
becomes known at retirement, read back from the retired graph via the
export handle. -/
theorem C10_export_access_nothing (g : TemporalRenderGraph) (rg' : RenderGraph)
    (es : ExportedTemporalRenderGraphState) (h : g.export_temporal = some (rg', es)) :
    (∃ l, rg'.imageExports = g.rg.imageExports ++ l ∧
      ∀ p ∈ l, p.2 = AccessType.Nothing) ∧
    (∃ l, rg'.bufferExports = g.rg.bufferExports ++ l ∧
      ∀ p ∈ l, p.2 = AccessType.Nothing) ∧
    (∀ ret final, es.retire_temporal ret = some final →
      (∀ k r eh, findState es.state.images k = some (.Exported r eh) →
        findState final.images k = some (.Inert r (ret.imageExportedResource eh).2)) ∧
      (∀ k r eh, findState es.state.buffers k = some (.Exported r eh) →
        findState final.buffers k = some (.Inert r (ret.bufferExportedResource eh).2))) := by
  rcases export_temporal_inv h with ⟨ie, be, h1i, h1b, hrg⟩
  subst hrg
  refine ⟨exportStates_appendix h1i, exportStates_appendix h1b, fun ret final hret => ?_⟩
  rcases retire_temporal_inv hret with ⟨h2i, h2b⟩
  exact ⟨fun k r eh hf => (retireStates_find h2i k).2 r eh hf,
    fun k r eh hf => (retireStates_find h2b k).2 r eh hf⟩

/-- C10 witness: exporting `sampleTRGRound` appends only `Nothing`-access
records to the graph's export logs. -/
theorem C10_export_access_nothing_witness :
    ∃ rg' es, sampleTRGRound.export_temporal = some (rg', es) ∧
      (∃ l, rg'.imageExports = sampleTRGRound.rg.imageExports ++ l ∧
        ∀ p ∈ l, p.2 = AccessType.Nothing) ∧
      (∃ l, rg'.bufferExports = sampleTRGRound.rg.bufferExports ++ l ∧
        ∀ p ∈ l, p.2 = AccessType.Nothing) := by
  obtain ⟨out, hout⟩ : ∃ out, sampleTRGRound.export_temporal = some out := ⟨_, rfl⟩
  obtain ⟨rg', es⟩ := out
  have h := C10_export_access_nothing sampleTRGRound rg' es hout
  exact ⟨rg', es, hout, h.1, h.2.1⟩

theorem exportStates_none_of_exported {Res : Type} {m : ResMap Res}
    (hex : ∃ p ∈ m, ∃ r h, p.2 = TemporalResourceState.Exported r h)
    (exps : List (Nat × AccessType)) : exportStates exps m = none := by
  induction m generalizing exps with
  | nil =>
    rcases hex with ⟨p, hp, _⟩
    simp at hp
  | cons q rest ih =>
    obtain ⟨k₀, st₀⟩ := q
    rcases hex with ⟨p, hp, r, h, hpe⟩
    rcases List.mem_cons.mp hp with hq | hq
    · subst hq
      simp only at hpe
      subst hpe
      simp [exportStates]
    · have hex' : ∃ p ∈ rest, ∃ r h, p.2 = TemporalResourceState.Exported r h :=
        ⟨p, hq, r, h, hpe⟩
      cases st₀ with
      | Inert r₀ a₀ => simp [exportStates, ih hex']
      | Imported r₀ h₀ => simp [exportStates, ih hex']
      | Exported r₀ h₀ => simp [exportStates]

theorem retireStates_none_of_imported {Res : Type} {m : ResMap Res}
    (him : ∃ p ∈ m, ∃ r h, p.2 = TemporalResourceState.Imported r h)
    (f : Nat → Res × AccessType) : retireStates f m = none := by
  induction m with
  | nil =>
    rcases him with ⟨p, hp, _⟩
    simp at hp
  | cons q rest ih =>
    obtain ⟨k₀, st₀⟩ := q
    rcases him with ⟨p, hp, r, h, hpe⟩
    rcases List.mem_cons.mp hp with hq | hq
    · subst hq
      simp only at hpe
      subst hpe
      simp [retireStates]
    · have him' : ∃ p ∈ rest, ∃ r h, p.2 = TemporalResourceState.Imported r h :=
        ⟨p, hq, r, h, hpe⟩
      cases st₀ with
      | Inert r₀ a₀ => simp [retireStates, ih him']
      | Imported r₀ h₀ => simp [retireStates]
      | Exported r₀ h₀ => simp [retireStates, ih him']

/-- C8: the temporal state machine.  Each key holds exactly one state of
the closed sum `Inert`/`Imported`/`Exported` (enforced by the type).  The
only transitions performed are: `get_or_create_temporal` takes an absent or
`Inert` key to `Imported` (leaving every other key and the other ledger
untouched), `export_temporal` takes `Imported` to `Exported` and leaves
`Inert` alone, and `retire_temporal` takes `Exported` back to `Inert` and
leaves `Inert` alone.  A double claim is a recoverable error, while the
out-of-protocol observations — `Exported` seen by `get_or_create` or by
export, `Imported` seen by retire — are fatal (`panic`/`none`).  Under the
protocol (no key `Exported` when claiming or exporting), the fatal
branches are unreachable: `get_or_create` never panics, export succeeds,
export leaves no `Imported` key, and retire always succeeds on export's
output. -/
theorem C8_temporal_state_machine (g : TemporalRenderGraph) (ret : RetiredRenderGraph) :
    (∀ (k : TemporalResourceKey) (desc : ImageDesc),
      (∀ r a, findState g.temporalState.images k = some (.Inert r a) →
        ∃ h g', g.get_or_create_temporal_image k desc = .ok h g' ∧
          findState g'.temporalState.images k = some (.Imported r h) ∧
          (∀ k', k' ≠ k → findState g'.temporalState.images k' =
            findState g.temporalState.images k') ∧
          g'.temporalState.buffers = g.temporalState.buffers) ∧
      (∀ r h, findState g.temporalState.images k = some (.Imported r h) →
        g.get_or_create_temporal_image k desc = .err (.alreadyTaken k) g) ∧
      (∀ r h, findState g.temporalState.images k = some (.Exported r h) →
        g.get_or_create_temporal_image k desc = .panic) ∧
      (findState g.temporalState.images k = none →
        ∀ r, g.device.createImageFn desc = .ok r →
          ∃ h g', g.get_or_create_temporal_image k desc = .ok h g' ∧
            findState g'.temporalState.images k = some (.Imported r h) ∧
            (∀ k', k' ≠ k → findState g'.temporalState.images k' =
              findState g.temporalState.images k') ∧
            g'.temporalState.buffers = g.temporalState.buffers)) ∧
    (∀ (k : TemporalResourceKey) (desc : BufferDesc),
      (∀ r a, findState g.temporalState.buffers k = some (.Inert r a) →
        ∃ h g', g.get_or_create_temporal_buffer k desc = .ok h g' ∧
          findState g'.temporalState.buffers k = some (.Imported r h) ∧
          (∀ k', k' ≠ k → findState g'.temporalState.buffers k' =
            findState g.temporalState.buffers k') ∧
          g'.temporalState.images = g.temporalState.images) ∧
      (∀ r h, findState g.temporalState.buffers k = some (.Imported r h) →
        g.get_or_create_temporal_buffer k desc = .err (.alreadyTaken k) g) ∧
      (∀ r h, findState g.temporalState.buffers k = some (.Exported r h) →
        g.get_or_create_temporal_buffer k desc = .panic) ∧
      (findState g.temporalState.buffers k = none →
        ∀ r, g.device.createBufferFn desc k.key = .ok r →
          ∃ h g', g.get_or_create_temporal_buffer k desc = .ok h g' ∧
            findState g'.temporalState.buffers k = some (.Imported r h) ∧
            (∀ k', k' ≠ k → findState g'.temporalState.buffers k' =
              findState g.temporalState.buffers k') ∧
            g'.temporalState.images = g.temporalState.images)) ∧
    (∀ rg' es, g.export_temporal = some (rg', es) →
      (∀ k, (∀ r a, findState g.temporalState.images k = some (.Inert r a) →
          findState es.state.images k = some (.Inert r a)) ∧
        (∀ r h, findState g.temporalState.images k = some (.Imported r h) →
          ∃ eh, findState es.state.images k = some (.Exported r eh)) ∧
        (∀ r a, findState g.temporalState.buffers k = some (.Inert r a) →
          findState es.state.buffers k = some (.Inert r a)) ∧
        (∀ r h, findState g.temporalState.buffers k = some (.Imported r h) →
          ∃ eh, findState es.state.buffers k = some (.Exported r eh))) ∧
      noImported es.state.images ∧ noImported es.state.buffers) ∧
    (((∃ p ∈ g.temporalState.images, ∃ r h, p.2 = TemporalResourceState.Exported r h) ∨
      (∃ p ∈ g.temporalState.buffers, ∃ r h, p.2 = TemporalResourceState.Exported r h)) →
      g.export_temporal = none) ∧
    (∀ (es : ExportedTemporalRenderGraphState) (final : TemporalRenderGraphState),
      es.retire_temporal ret = some final →
      ∀ k, (∀ r a, findState es.state.images k = some (.Inert r a) →
          findState final.images k = some (.Inert r a)) ∧
        (∀ r h, findState es.state.images k = some (.Exported r h) →
          findState final.images k = some (.Inert r (ret.imageExportedResource h).2)) ∧
        (∀ r a, findState es.state.buffers k = some (.Inert r a) →
          findState final.buffers k = some (.Inert r a)) ∧
        (∀ r h, findState es.state.buffers k = some (.Exported r h) →
          findState final.buffers k = some (.Inert r (ret.bufferExportedResource h).2))) ∧
    (∀ es : ExportedTemporalRenderGraphState,
      ((∃ p ∈ es.state.images, ∃ r h, p.2 = TemporalResourceState.Imported r h) ∨
       (∃ p ∈ es.state.buffers, ∃ r h, p.2 = TemporalResourceState.Imported r h)) →
      es.retire_temporal ret = none) ∧
    (noExported g.temporalState.images → noExported g.temporalState.buffers →
      (∀ (k : TemporalResourceKey) (desc : ImageDesc),
        g.get_or_create_temporal_image k desc ≠ .panic) ∧
      (∀ (k : TemporalResourceKey) (desc : BufferDesc),
        g.get_or_create_temporal_buffer k desc ≠ .panic) ∧
      (∃ out, g.export_temporal = some out) ∧
      (∀ rg' es, g.export_temporal = some (rg', es) →
        ∃ final, es.retire_temporal ret = some final)) := by
  refine ⟨?_, ?_, ?_, ?_, ?_, ?_, ?_⟩
  · intro k desc
    refine ⟨fun r a hf => ?_, fun r h hf => gOC_image_imported desc hf,
      fun r h hf => gOC_image_exported desc hf, fun hf r hcr => ?_⟩
    · refine ⟨g.rg.imageImports.length, _, gOC_image_inert desc hf, ?_, ?_, rfl⟩
      · exact findState_setState_self _ hf
      · intro k' hk
        exact findState_setState_ne _ _ (Ne.symm hk)
    · refine ⟨g.rg.imageImports.length, _, gOC_image_vacant_ok hf hcr, ?_, ?_, rfl⟩
      · rw [findState_append_none _ hf]
        simp [findState]
      · intro k' hk
        rw [findState_append_singleton_ne _ (Ne.symm hk)]
  · intro k desc
    refine ⟨fun r a hf => ?_, fun r h hf => gOC_buffer_imported desc hf,
      fun r h hf => gOC_buffer_exported desc hf, fun hf r hcr => ?_⟩
    · refine ⟨g.rg.bufferImports.length, _, gOC_buffer_inert desc hf, ?_, ?_, rfl⟩
      · exact findState_setState_self _ hf
      · intro k' hk
        exact findState_setState_ne _ _ (Ne.symm hk)
    · refine ⟨g.rg.bufferImports.length, _, gOC_buffer_vacant_ok hf hcr, ?_, ?_, rfl⟩
      · rw [findState_append_none _ hf]
        simp [findState]
      · intro k' hk
        rw [findState_append_singleton_ne _ (Ne.symm hk)]
  · intro rg' es hexp
    rcases export_temporal_inv hexp with ⟨ie, be, h1i, h1b, _⟩
    refine ⟨fun k => ⟨(exportStates_find h1i k).2.1, (exportStates_find h1i k).2.2,
      (exportStates_find h1b k).2.1, (exportStates_find h1b k).2.2⟩,
      exportStates_noImported h1i, exportStates_noImported h1b⟩
  · intro hex
    unfold TemporalRenderGraph.export_temporal
    rcases hex with hex | hex
    · rw [exportStates_none_of_exported hex]
    · cases h1 : exportStates g.rg.imageExports g.temporalState.images with
      | none => rfl
      | some out =>
        obtain ⟨ie, im⟩ := out
        rw [exportStates_none_of_exported hex]
  · intro es final hret k
    rcases retire_temporal_inv hret with ⟨h2i, h2b⟩
    exact ⟨(retireStates_find h2i k).1, (retireStates_find h2i k).2,
      (retireStates_find h2b k).1, (retireStates_find h2b k).2⟩
  · intro es him
    unfold ExportedTemporalRenderGraphState.retire_temporal
    rcases him with him | him
    · rw [retireStates_none_of_imported him]
    · cases h1 : retireStates ret.imageExportedResource es.state.images with
      | none => rfl
      | some im => rw [retireStates_none_of_imported him]
  · intro hi hb
    refine ⟨?_, ?_, export_temporal_some hi hb, ?_⟩
    · intro k desc hpanic
      cases hf : findState g.temporalState.images k with
      | none =>
        cases hcr : g.device.createImageFn desc with
        | error e => rw [gOC_image_vacant_err hf hcr] at hpanic; cases hpanic
        | ok r => rw [gOC_image_vacant_ok hf hcr] at hpanic; cases hpanic
      | some st =>
        cases st with
        | Inert r a => rw [gOC_image_inert desc hf] at hpanic; cases hpanic
        | Imported r h => rw [gOC_image_imported desc hf] at hpanic; cases hpanic
        | Exported r h => exact hi _ (findState_mem hf) r h rfl
    · intro k desc hpanic
      cases hf : findState g.temporalState.buffers k with
      | none =>
        cases hcr : g.device.createBufferFn desc k.key with
        | error e => rw [gOC_buffer_vacant_err hf hcr] at hpanic; cases hpanic
        | ok r => rw [gOC_buffer_vacant_ok hf hcr] at hpanic; cases hpanic
      | some st =>
        cases st with
        | Inert r a => rw [gOC_buffer_inert desc hf] at hpanic; cases hpanic
        | Imported r h => rw [gOC_buffer_imported desc hf] at hpanic; cases hpanic
        | Exported r h => exact hb _ (findState_mem hf) r h rfl
    · intro rg' es hexp
      rcases export_temporal_inv hexp with ⟨ie, be, h1i, h1b, _⟩
      exact retire_temporal_some ret (exportStates_noImported h1i)
        (exportStates_noImported h1b)

/-- C8 witness: on `sampleTRGInert` (one inert image key, following the
protocol), claiming the key takes it to `Imported` without touching
anything else, and export succeeds. -/
theorem C8_temporal_state_machine_witness :
    findState sampleTRGInert.temporalState.images ⟨"history"⟩ =
      some (.Inert ⟨3⟩ (AccessType.Other 2)) ∧
    (∃ h g', sampleTRGInert.get_or_create_temporal_image ⟨"history"⟩ ⟨0⟩ = .ok h g' ∧
      findState g'.temporalState.images ⟨"history"⟩ = some (.Imported ⟨3⟩ h) ∧
      (∀ k', k' ≠ ⟨"history"⟩ → findState g'.temporalState.images k' =
        findState sampleTRGInert.temporalState.images k') ∧
      g'.temporalState.buffers = sampleTRGInert.temporalState.buffers) ∧
    ∃ out, sampleTRGInert.export_temporal = some out := by
  have h := C8_temporal_state_machine sampleTRGInert sampleRetired
  have hnoi : noExported sampleTRGInert.temporalState.images := by
    intro p hp r hh
    simp [sampleTRGInert] at hp
    subst hp
    simp
  have hnob : noExported sampleTRGInert.temporalState.buffers := by
    intro p hp r hh
    simp [sampleTRGInert] at hp
  exact ⟨rfl, (h.1 ⟨"history"⟩ ⟨0⟩).1 ⟨3⟩ (AccessType.Other 2) rfl,
    (h.2.2.2.2.2.2 hnoi hnob).2.2.1⟩
